import Mathlib

/-! # Verification of the aggregation core of `amazon_analyzer_mela.py`

Shallow embedding of the analysis methods of class `AmazonOrdersAnalyzer`:
`get_summary`, `get_products_summary`, `get_monthly_trends`,
`get_fba_fbm_analysis`, `get_promotions_analysis`,
`get_market_monthly_analysis` and `get_business_analysis`.

Modelling conventions:
* a CSV row (`Dict[str, str]`) becomes `Order`; each relevant column is an
  `Option String` (`none` = column absent from the row);
* Python floats are modelled as exact rationals `ℚ`;
* `float(...)` / `int(...)` are modelled by parsers of the decimal fragment
  of their input grammar, returning `none` exactly where Python raises
  `ValueError` (exponents, infinities and surrounding whitespace, which no
  claim depends on, are out of the modelled fragment);
* each `try/except (ValueError, TypeError)` block is modelled by
  `Option`-matching that keeps the mutations performed before the failing
  conversion and abandons the rest of the block, exactly like the
  exception does;
* `datetime.fromisoformat` followed by `strftime("%Y-%m")` is modelled by
  `parseMonth`, which accepts a four-digit-year ISO prefix and returns its
  first seven characters as the month key;
* Python dicts (and `defaultdict`s) become insertion-ordered association
  lists; `sorted(d.items())` on a dict with distinct keys becomes a stable
  insertion sort by key;
* the Python `set` of SKUs of a promotion becomes a duplicate-free list
  (only membership and cardinality of that set are ever consumed). -/

/-- One Amazon order row, as produced by `csv.DictReader`: every column the
analyzer reads, `none` when the column is absent. -/
structure Order where
  order_status : Option String := none
  sales_channel : Option String := none
  ship_country : Option String := none
  fulfillment_channel : Option String := none
  item_price : Option String := none
  item_tax : Option String := none
  shipping_price : Option String := none
  quantity : Option String := none
  sku : Option String := none
  product_name : Option String := none
  purchase_date : Option String := none
  promotion_ids : Option String := none
  is_business_order : Option String := none
deriving DecidableEq

/-- Numeric value of a decimal digit character. -/
def digVal (c : Char) : Nat := c.toNat - '0'.toNat

/-- Value of a list of decimal digit characters. -/
def digitsToNat (l : List Char) : Nat := l.foldl (fun n c => 10 * n + digVal c) 0

/-- Model of Python `float(s)` on the decimal fragment `[+-]?digits[.digits]`:
`none` exactly where Python raises `ValueError`. -/
def parseFloatQ (s : String) : Option ℚ :=
  let cs := s.toList
  let sign : ℚ := if cs.head? = some '-' then -1 else 1
  let cs := if cs.head? = some '-' ∨ cs.head? = some '+' then cs.tail else cs
  let intPart := cs.takeWhile Char.isDigit
  let rest := cs.dropWhile Char.isDigit
  match rest with
  | [] => if intPart = [] then none else some (sign * (digitsToNat intPart : ℚ))
  | '.' :: frac =>
    if frac.all Char.isDigit ∧ (intPart ≠ [] ∨ frac ≠ []) then
      some (sign * ((digitsToNat intPart : ℚ) + (digitsToNat frac : ℚ) / (10 : ℚ) ^ frac.length))
    else none
  | _ => none

/-- Model of Python `int(s)` on the fragment `[+-]?digits`. -/
def parseIntZ (s : String) : Option ℤ :=
  let cs := s.toList
  let sign : ℤ := if cs.head? = some '-' then -1 else 1
  let cs := if cs.head? = some '-' ∨ cs.head? = some '+' then cs.tail else cs
  if cs ≠ [] ∧ cs.all Char.isDigit then some (sign * (digitsToNat cs : ℤ)) else none

/-- Model of `float(row.get(col, 0) or 0)`: a missing column gives `float(0)`,
an empty string is falsy and also gives `float(0)`, any other string is fed
to `float`, which may raise (`none`). -/
def pyFloatField (f : Option String) : Option ℚ :=
  match f with
  | none => some 0
  | some s => if s = "" then some 0 else parseFloatQ s

/-- Model of `int(row.get(col, 0) or 0)`. -/
def pyIntField (f : Option String) : Option ℤ :=
  match f with
  | none => some 0
  | some s => if s = "" then some 0 else parseIntZ s

/-- Model of `s.replace('Z', '+00:00')` on the character list. -/
def replaceZ : List Char → List Char
  | [] => []
  | 'Z' :: rest => '+' :: '0' :: '0' :: ':' :: '0' :: '0' :: replaceZ rest
  | c :: rest => c :: replaceZ rest

/-- Is `n` (two digits `a b`) within `lo..hi`? Used for month and day fields. -/
def validDigit2 (a b : Char) (lo hi : Nat) : Bool :=
  a.isDigit && b.isDigit && decide (lo ≤ 10 * digVal a + digVal b) &&
    decide (10 * digVal a + digVal b ≤ hi)

/-- Gregorian leap-year rule, as used by `datetime`. -/
def isLeapYear (y : Nat) : Bool :=
  (y % 4 == 0 && y % 100 != 0) || (y % 400 == 0)

/-- Number of days of a month, as validated by `datetime`. -/
def daysInMonth (y m : Nat) : Nat :=
  if m = 2 then (if isLeapYear y then 29 else 28)
  else if m = 4 ∨ m = 6 ∨ m = 9 ∨ m = 11 then 30 else 31

/-- UTC-offset part of an ISO timestamp after the sign: `HH`, `HHMM`,
`HH:MM` or `HH:MM:SS`, with the component ranges `fromisoformat` enforces. -/
def isoOffsetBody : List Char → Bool
  | h1 :: h2 :: rest =>
    validDigit2 h1 h2 0 23 &&
      (match rest with
       | [] => true
       | [m1, m2] => validDigit2 m1 m2 0 59
       | ':' :: m1 :: m2 :: rest2 =>
         validDigit2 m1 m2 0 59 &&
           (match rest2 with
            | [] => true
            | ':' :: s1 :: s2 :: [] => validDigit2 s1 s2 0 59
            | _ => false)
       | _ => false)
  | _ => false

/-- UTC offset: a `+` or `-` sign followed by an offset body. -/
def isoOffset : List Char → Bool
  | c :: rest => (c == '+' || c == '-') && isoOffsetBody rest
  | [] => false

/-- Remainder of a fractional-seconds field: further digits, then an
optional UTC offset. -/
def isoFracRest : List Char → Bool
  | [] => true
  | c :: rest => if c.isDigit then isoFracRest rest else isoOffset (c :: rest)

/-- After `HH:MM:SS`: nothing, a fractional part (`.` or `,` then at least
one digit), or a UTC offset. -/
def isoAfterSec : List Char → Bool
  | [] => true
  | c :: rest =>
    if c == '.' || c == ',' then
      match rest with
      | d :: rest2 => d.isDigit && isoFracRest rest2
      | [] => false
    else isoOffset (c :: rest)

/-- After `HH:MM`: nothing, `:SS…`, or a UTC offset. -/
def isoAfterMin : List Char → Bool
  | [] => true
  | ':' :: s1 :: s2 :: rest => validDigit2 s1 s2 0 59 && isoAfterSec rest
  | cs => isoOffset cs

/-- After `HH`: nothing, `:MM…`, or a UTC offset. -/
def isoAfterHour : List Char → Bool
  | [] => true
  | ':' :: m1 :: m2 :: rest => validDigit2 m1 m2 0 59 && isoAfterMin rest
  | cs => isoOffset cs

/-- Time of day: a two-digit hour `00..23`, then `isoAfterHour`. -/
def isoTime : List Char → Bool
  | h1 :: h2 :: rest => validDigit2 h1 h2 0 23 && isoAfterHour rest
  | _ => false

/-- After the date: nothing, or one separator character (`fromisoformat`
accepts any single character there) followed by a nonempty time. -/
def isoTimeSep : List Char → Bool
  | [] => true
  | _ :: rest => isoTime rest

/-- Day-and-time part of an ISO timestamp after `YYYY-MM`: a `-DD` day
valid for the given year and month, then `isoTimeSep`.  A bare `YYYY-MM`
(empty remainder) is rejected, as `fromisoformat` rejects it. -/
def isoDayTime (y m : Nat) : List Char → Bool
  | '-' :: d1 :: d2 :: rest => validDigit2 d1 d2 1 (daysInMonth y m) && isoTimeSep rest
  | _ => false

/-- Model of `datetime.fromisoformat` followed by `strftime('%Y-%m')` on the
dashed-date fragment of its grammar (CPython 3.11 semantics): the input must
be `YYYY-MM-DD` with a four-digit year of value at least 1, a month `01..12`
and a day valid for that month (Gregorian leap years included), optionally
followed by one separator character and a time with in-range components and
an optional UTC offset; anything else — a bare `YYYY-MM`, an out-of-range
field, trailing garbage — is rejected like `fromisoformat` raises.  The
undashed basic format and week/ordinal dates, which `fromisoformat` also
accepts, are outside the modelled fragment, as are fractional offset
seconds.  On success the result is the `strftime('%Y-%m')` key as glibc
prints it: the year's decimal digits WITHOUT zero-padding (`%Y` does not
pad years below 1000 on glibc, so year 999 prints as `999`), a hyphen, and
the zero-padded two-digit month. -/
def fromisoMonth (cs : List Char) : Option (List Char) :=
  match cs with
  | y1 :: y2 :: y3 :: y4 :: hy :: m1 :: m2 :: rest =>
    if y1.isDigit && y2.isDigit && y3.isDigit && y4.isDigit && (hy == '-') &&
        decide (0 < digitsToNat [y1, y2, y3, y4]) &&
        validDigit2 m1 m2 1 12 &&
        isoDayTime (digitsToNat [y1, y2, y3, y4]) (10 * digVal m1 + digVal m2) rest then
      some (([y1, y2, y3, y4].dropWhile (fun c => c == '0')) ++ '-' :: m1 :: m2 :: [])
    else none
  | _ => none

/-- Month key of a purchase-date string: `replace('Z', '+00:00')`, then
`fromisoformat` + `strftime('%Y-%m')`; `none` where Python raises. -/
def parseMonth (s : String) : Option String :=
  (fromisoMonth (replaceZ s.toList)).map List.asString

/-- Does a string match the pattern `YYYY-MM` (four digits, hyphen, two
digits)? -/
def isMonthKey (s : String) : Bool :=
  match s.toList with
  | [y1, y2, y3, y4, h, m1, m2] =>
    y1.isDigit && y2.isDigit && y3.isDigit && y4.isDigit && h == '-' &&
      m1.isDigit && m2.isDigit
  | _ => false

/-- Tail of a glibc `%Y-%m` key after its first character: further year
digits until the hyphen, then exactly two month digits. -/
def glibcKeyTail : List Char → Bool
  | [] => false
  | c :: rest =>
    if c == '-' then
      match rest with
      | [m1, m2] => m1.isDigit && m2.isDigit
      | _ => false
    else c.isDigit && glibcKeyTail rest

/-- Does a string match the shape of a glibc `strftime('%Y-%m')` key: the
year's decimal digits without zero-padding (nonempty, no leading zero), a
hyphen, and two month digits?  Coincides with `isMonthKey` exactly when the
year has four digits, i.e. lies in `1000..9999`. -/
def isGlibcMonthKey (s : String) : Bool :=
  match s.toList with
  | [] => false
  | c :: rest => c.isDigit && !(c == '0') && glibcKeyTail rest

/-- Model of `str.strip()` (without arguments: strips whitespace). -/
def pyStrip (s : String) : String :=
  (((s.toList.dropWhile Char.isWhitespace).reverse.dropWhile Char.isWhitespace).reverse).asString

/-- Model of `str.lower()`. -/
def pyLower (s : String) : String := (s.toList.map Char.toLower).asString

/-- Increment of a `defaultdict(int)` entry: `d[k] += 1`.  Keys keep their
insertion order, a new key is appended at the end. -/
def bump (m : List (String × Nat)) (k : String) : List (String × Nat) :=
  match m with
  | [] => [(k, 1)]
  | (k', v) :: rest => if k' = k then (k', v + 1) :: rest else (k', v) :: bump rest k

/-- Access-and-update of a `defaultdict` entry: `f` applied to `d[k]`, the
entry being created as `dflt` on first access. -/
def updAssoc {β : Type} (m : List (String × β)) (k : String) (dflt : β) (f : β → β) :
    List (String × β) :=
  match m with
  | [] => [(k, f dflt)]
  | (k', v) :: rest => if k' = k then (k', f v) :: rest else (k', v) :: updAssoc rest k dflt f

/-- Python dict lookup `d[k]` (`none` when the key is absent). -/
def lookupA {β : Type} : List (String × β) → String → Option β
  | [], _ => none
  | (k', v) :: rest, k => if k' = k then some v else lookupA rest k

/-- Count stored under a key of a counting dict, zero when absent. -/
def countOf (m : List (String × Nat)) (k : String) : Nat := (lookupA m k).getD 0

/-- One step of a stable insertion sort: `keep x y` means that the inserted
element `x` belongs after `y`, so with `keep x y` true on ties the sort is
stable, like Python `sorted` / `list.sort`. -/
def insStable {α : Type} (keep : α → α → Bool) (x : α) : List α → List α
  | [] => [x]
  | y :: ys => if keep x y then y :: insStable keep x ys else x :: y :: ys

/-- Stable insertion sort; extensionally the sort computed by Python's stable
`sorted` for the orderings used below. -/
def stableSort {α : Type} (keep : α → α → Bool) (l : List α) : List α :=
  l.foldl (fun acc x => insStable keep x acc) []

/-- Result of `get_summary`. -/
structure Summary where
  total_orders : Nat
  by_status : List (String × Nat)
  by_marketplace : List (String × Nat)
  by_country : List (String × Nat)
  by_fulfillment : List (String × Nat)
  total_revenue : ℚ
  total_tax : ℚ
  total_shipping : ℚ
  total_items_sold : ℤ
deriving DecidableEq

/-- The summary dict as first built: `total_orders = len(self.orders)`,
everything else zero / empty. -/
def initSummary (n : Nat) : Summary := ⟨n, [], [], [], [], 0, 0, 0, 0⟩

/-- Body of the `for order in self.orders` loop of `get_summary`.  The
`try` block converts `item-price`, adds it, converts `item-tax`, adds it,
converts `shipping-price`, adds it; a failing conversion keeps the additions
already made and abandons the rest of the block.  The `quantity` conversion
lives in its own `try`. -/
def summaryStep (s : Summary) (o : Order) : Summary :=
  let status := o.order_status.getD "Unknown"
  let s := { s with by_status := bump s.by_status status }
  let s := { s with by_marketplace := bump s.by_marketplace (o.sales_channel.getD "Unknown") }
  let s := { s with by_country := bump s.by_country (o.ship_country.getD "Unknown") }
  let s := { s with by_fulfillment := bump s.by_fulfillment (o.fulfillment_channel.getD "Unknown") }
  let s :=
    if status = "Shipped" then
      match pyFloatField o.item_price with
      | none => s
      | some ip =>
        let s := { s with total_revenue := s.total_revenue + ip }
        match pyFloatField o.item_tax with
        | none => s
        | some it =>
          let s := { s with total_tax := s.total_tax + it }
          match pyFloatField o.shipping_price with
          | none => s
          | some sp => { s with total_shipping := s.total_shipping + sp }
    else s
  match pyIntField o.quantity with
  | none => s
  | some q => { s with total_items_sold := s.total_items_sold + q }

/-- `get_summary`. -/
def get_summary (orders : List Order) : Summary :=
  orders.foldl summaryStep (initSummary orders.length)

/-- One per-SKU rollup entry of `get_products_summary`. -/
structure Product where
  name : String
  sku : String
  total_quantity : ℤ
  total_revenue : ℚ
  orders_count : Nat
deriving DecidableEq

/-- The default entry of the products `defaultdict`. -/
def initProduct : Product := ⟨"", "", 0, 0, 0⟩

/-- Updates applied to `products[sku]` for one order. -/
def productUpdate (o : Order) (sk : String) (p : Product) : Product :=
  let p := if p.name = "" then { p with name := o.product_name.getD "N/A" } else p
  let p := { p with sku := sk }
  let p := { p with orders_count := p.orders_count + 1 }
  let p :=
    match pyIntField o.quantity with
    | none => p
    | some q => { p with total_quantity := p.total_quantity + q }
  if o.order_status.getD "" = "Shipped" then
    match pyFloatField o.item_price with
    | none => p
    | some ip => { p with total_revenue := p.total_revenue + ip }
  else p

/-- The SKU under which an order is grouped (`order.get('sku', 'Unknown')`). -/
def skuOf (o : Order) : String := o.sku.getD "Unknown"

/-- Body of the `get_products_summary` loop: rows with an empty or
`"Unknown"` SKU are skipped (`continue`), the rest update their entry. -/
def productsStep (acc : List (String × Product)) (o : Order) : List (String × Product) :=
  let sk := skuOf o
  if sk = "" ∨ sk = "Unknown" then acc
  else updAssoc acc sk initProduct (productUpdate o sk)

/-- `get_products_summary`: the dict values, sorted descending by
`total_revenue` with Python's stable sort. -/
def get_products_summary (orders : List Order) : List Product :=
  stableSort (fun x y => decide (x.total_revenue ≤ y.total_revenue))
    ((orders.foldl productsStep []).map Prod.snd)

/-- Index in the order list of the first order grouped under a given SKU. -/
def firstSkuIdx (orders : List Order) (s : String) : Nat :=
  orders.findIdx (fun o => skuOf o == s)

/-- One month bucket of `get_monthly_trends`. -/
structure MonthStats where
  orders : Nat
  revenue : ℚ
  items : ℤ
  shipped : Nat
  cancelled : Nat
  pending : Nat
deriving DecidableEq

/-- The default month bucket. -/
def initMonth : MonthStats := ⟨0, 0, 0, 0, 0, 0⟩

/-- Body of the `get_monthly_trends` loop.  An empty purchase date is
skipped before the `try`; inside the `try`, a failure of the date parse, of
`int(quantity)` or of `float(item-price)` triggers `continue`, keeping the
mutations already made. -/
def monthlyStep (acc : List (String × MonthStats)) (o : Order) : List (String × MonthStats) :=
  let purchase_date := o.purchase_date.getD ""
  let status := o.order_status.getD ""
  if purchase_date = "" then acc
  else
    match parseMonth purchase_date with
    | none => acc
    | some mk =>
      let acc := updAssoc acc mk initMonth (fun e => { e with orders := e.orders + 1 })
      let acc :=
        if status = "Shipped" then
          updAssoc acc mk initMonth (fun e => { e with shipped := e.shipped + 1 })
        else if status = "Cancelled" then
          updAssoc acc mk initMonth (fun e => { e with cancelled := e.cancelled + 1 })
        else if status = "Pending" then
          updAssoc acc mk initMonth (fun e => { e with pending := e.pending + 1 })
        else acc
      match pyIntField o.quantity with
      | none => acc
      | some q =>
        let acc := updAssoc acc mk initMonth (fun e => { e with items := e.items + q })
        if status = "Shipped" then
          match pyFloatField o.item_price with
          | none => acc
          | some ip => updAssoc acc mk initMonth (fun e => { e with revenue := e.revenue + ip })
        else acc

/-- `get_monthly_trends`: `dict(sorted(monthly.items()))`. -/
def get_monthly_trends (orders : List Order) : List (String × MonthStats) :=
  stableSort (fun x y => decide (y.1 ≤ x.1)) (orders.foldl monthlyStep [])

/-- Per-channel totals of `get_fba_fbm_analysis` / `get_business_analysis`. -/
structure ChannelStats where
  orders : Nat
  revenue : ℚ
  items : ℤ
  cancelled : Nat
deriving DecidableEq

/-- One bucket of the monthly sub-series of the channel analyses. -/
structure MonthlyCR where
  orders : Nat
  revenue : ℚ
deriving DecidableEq

/-- Result of `get_fba_fbm_analysis`. -/
structure FbaFbm where
  fba : ChannelStats
  fbm : ChannelStats
  monthly_fba : List (String × MonthlyCR)
  monthly_fbm : List (String × MonthlyCR)
deriving DecidableEq

/-- Body of the `get_fba_fbm_analysis` loop.  Classification is total:
`fulfillment == 'Amazon'` is FBA, everything else FBM.  Inside the
`try`, revenue is added as soon as `item-price` converts; a later failure of
the date parse keeps that addition (`except: pass`). -/
def fbaStep (a : FbaFbm) (o : Order) : FbaFbm :=
  let fulfillment := o.fulfillment_channel.getD "Unknown"
  let status := o.order_status.getD ""
  let purchase_date := o.purchase_date.getD ""
  let is_fba : Bool := fulfillment == "Amazon"
  let a :=
    if is_fba then { a with fba := { a.fba with orders := a.fba.orders + 1 } }
    else { a with fbm := { a.fbm with orders := a.fbm.orders + 1 } }
  let a :=
    if status = "Cancelled" then
      if is_fba then { a with fba := { a.fba with cancelled := a.fba.cancelled + 1 } }
      else { a with fbm := { a.fbm with cancelled := a.fbm.cancelled + 1 } }
    else a
  let a :=
    match pyIntField o.quantity with
    | none => a
    | some q =>
      if is_fba then { a with fba := { a.fba with items := a.fba.items + q } }
      else { a with fbm := { a.fbm with items := a.fbm.items + q } }
  if status = "Shipped" then
    match pyFloatField o.item_price with
    | none => a
    | some ip =>
      let a :=
        if is_fba then { a with fba := { a.fba with revenue := a.fba.revenue + ip } }
        else { a with fbm := { a.fbm with revenue := a.fbm.revenue + ip } }
      if purchase_date ≠ "" then
        match parseMonth purchase_date with
        | none => a
        | some mk =>
          if is_fba then
            { a with monthly_fba :=
                updAssoc a.monthly_fba mk ⟨0, 0⟩ (fun e => ⟨e.orders + 1, e.revenue + ip⟩) }
          else
            { a with monthly_fbm :=
                updAssoc a.monthly_fbm mk ⟨0, 0⟩ (fun e => ⟨e.orders + 1, e.revenue + ip⟩) }
      else a
  else a

/-- `get_fba_fbm_analysis`, with its final sorting of the monthly dicts. -/
def get_fba_fbm_analysis (orders : List Order) : FbaFbm :=
  let a := orders.foldl fbaStep ⟨⟨0, 0, 0, 0⟩, ⟨0, 0, 0, 0⟩, [], []⟩
  { a with
    monthly_fba := stableSort (fun x y => decide (y.1 ≤ x.1)) a.monthly_fba
    monthly_fbm := stableSort (fun x y => decide (y.1 ≤ x.1)) a.monthly_fbm }

/-- Result of `get_business_analysis`. -/
structure BusinessStats where
  business : ChannelStats
  consumer : ChannelStats
  monthly_business : List (String × MonthlyCR)
  monthly_consumer : List (String × MonthlyCR)
deriving DecidableEq

/-- `order.get('is-business-order', '').strip().lower() == 'true'`. -/
def isBusinessOf (o : Order) : Bool := pyLower (pyStrip (o.is_business_order.getD "")) == "true"

/-- Body of the `get_business_analysis` loop; structurally identical to
`fbaStep` with the classification `is-business-order == 'true'`. -/
def businessStep (a : BusinessStats) (o : Order) : BusinessStats :=
  let status := o.order_status.getD ""
  let purchase_date := o.purchase_date.getD ""
  let is_business : Bool := isBusinessOf o
  let a :=
    if is_business then { a with business := { a.business with orders := a.business.orders + 1 } }
    else { a with consumer := { a.consumer with orders := a.consumer.orders + 1 } }
  let a :=
    if status = "Cancelled" then
      if is_business then
        { a with business := { a.business with cancelled := a.business.cancelled + 1 } }
      else { a with consumer := { a.consumer with cancelled := a.consumer.cancelled + 1 } }
    else a
  let a :=
    match pyIntField o.quantity with
    | none => a
    | some q =>
      if is_business then { a with business := { a.business with items := a.business.items + q } }
      else { a with consumer := { a.consumer with items := a.consumer.items + q } }
  if status = "Shipped" then
    match pyFloatField o.item_price with
    | none => a
    | some ip =>
      let a :=
        if is_business then
          { a with business := { a.business with revenue := a.business.revenue + ip } }
        else { a with consumer := { a.consumer with revenue := a.consumer.revenue + ip } }
      if purchase_date ≠ "" then
        match parseMonth purchase_date with
        | none => a
        | some mk =>
          if is_business then
            { a with monthly_business :=
                updAssoc a.monthly_business mk ⟨0, 0⟩ (fun e => ⟨e.orders + 1, e.revenue + ip⟩) }
          else
            { a with monthly_consumer :=
                updAssoc a.monthly_consumer mk ⟨0, 0⟩ (fun e => ⟨e.orders + 1, e.revenue + ip⟩) }
      else a
  else a

/-- `get_business_analysis`, with its final sorting of the monthly dicts. -/
def get_business_analysis (orders : List Order) : BusinessStats :=
  let a := orders.foldl businessStep ⟨⟨0, 0, 0, 0⟩, ⟨0, 0, 0, 0⟩, [], []⟩
  { a with
    monthly_business := stableSort (fun x y => decide (y.1 ≤ x.1)) a.monthly_business
    monthly_consumer := stableSort (fun x y => decide (y.1 ≤ x.1)) a.monthly_consumer }

/-- One entry of `by_promotion_type`: order count and the set of distinct
SKUs, plus the derived `unique_skus` filled in by the final pass. -/
structure PromoTypeStats where
  count : Nat
  skus : List String
  unique_skus : Nat
deriving DecidableEq

/-- Result of `get_promotions_analysis`. -/
structure PromoResult where
  total_with_promotions : Nat
  by_promotion_type : List (String × PromoTypeStats)
  skus_on_promotion : List (String × Nat)
  monthly_promotions : List (String × Nat)
deriving DecidableEq

/-- Python `set.add` on the duplicate-free list model. -/
def addSku (l : List String) (s : String) : List String := if s ∈ l then l else l ++ [s]

/-- Body of the `get_promotions_analysis` loop: only rows with a nonempty
stripped `promotion-ids` contribute; the SKU (`'Unknown'` when absent) is
recorded without any exclusion. -/
def promoStep (a : PromoResult) (o : Order) : PromoResult :=
  let promo_id := pyStrip (o.promotion_ids.getD "")
  let sk := skuOf o
  let purchase_date := o.purchase_date.getD ""
  if promo_id = "" then a
  else
    let a := { a with total_with_promotions := a.total_with_promotions + 1 }
    let bpt1 := updAssoc a.by_promotion_type promo_id ⟨0, [], 0⟩
      (fun e => { e with count := e.count + 1 })
    let a := { a with by_promotion_type := bpt1 }
    let bpt2 := updAssoc a.by_promotion_type promo_id ⟨0, [], 0⟩
      (fun e => { e with skus := addSku e.skus sk })
    let a := { a with by_promotion_type := bpt2 }
    let a := { a with skus_on_promotion := bump a.skus_on_promotion sk }
    if purchase_date ≠ "" then
      match parseMonth purchase_date with
      | none => a
      | some mk => { a with monthly_promotions := bump a.monthly_promotions mk }
    else a

/-- Final pass of `get_promotions_analysis` on one `by_promotion_type`
entry: `unique_skus` becomes the cardinality of the SKU set. -/
def promoFinalize (e : PromoTypeStats) : PromoTypeStats :=
  { e with unique_skus := e.skus.length }

/-- `get_promotions_analysis`, with the final pass computing `unique_skus`
and sorting `monthly_promotions`. -/
def get_promotions_analysis (orders : List Order) : PromoResult :=
  let a := orders.foldl promoStep ⟨0, [], [], []⟩
  { a with
    by_promotion_type := a.by_promotion_type.map (fun p => (p.1, promoFinalize p.2))
    monthly_promotions := stableSort (fun x y => decide (y.1 ≤ x.1)) a.monthly_promotions }

/-- Body of the `get_market_monthly_analysis` loop: only rows whose
`order-status` is present and equal to `'Shipped'` contribute; the nested
`defaultdict` entry is touched only after both conversions succeed. -/
def marketStep (acc : List (String × List (String × ℚ))) (o : Order) :
    List (String × List (String × ℚ)) :=
  if o.order_status = some "Shipped" then
    let country := o.ship_country.getD "Unknown"
    let purchase_date := o.purchase_date.getD ""
    if purchase_date ≠ "" then
      match parseMonth purchase_date with
      | none => acc
      | some mk =>
        match pyFloatField o.item_price with
        | none => acc
        | some ip => updAssoc acc country [] (fun m => updAssoc m mk 0 (fun v => v + ip))
    else acc
  else acc

/-- `get_market_monthly_analysis`, with its final per-country sorting. -/
def get_market_monthly_analysis (orders : List Order) :
    List (String × List (String × ℚ)) :=
  (orders.foldl marketStep []).map (fun p => (p.1, stableSort (fun x y => decide (y.1 ≤ x.1)) p.2))

/-- Revenue contributed by one order to `Summary.total_revenue`: its item
price, when the order is shipped and the price converts. -/
def revDelta (o : Order) : ℚ :=
  if o.order_status.getD "Unknown" = "Shipped" then (pyFloatField o.item_price).getD 0 else 0

/-- Tax contributed by one order to `Summary.total_tax`: zero when the
earlier `item-price` conversion fails, because the exception skips it. -/
def taxDelta (o : Order) : ℚ :=
  if o.order_status.getD "Unknown" = "Shipped" then
    match pyFloatField o.item_price with
    | none => 0
    | some _ => (pyFloatField o.item_tax).getD 0
  else 0

/-- Shipping contributed by one order to `Summary.total_shipping`: zero
when the `item-price` or `item-tax` conversion fails first. -/
def shipDelta (o : Order) : ℚ :=
  if o.order_status.getD "Unknown" = "Shipped" then
    match pyFloatField o.item_price, pyFloatField o.item_tax with
    | some _, some _ => (pyFloatField o.shipping_price).getD 0
    | _, _ => 0
  else 0

/-- Items contributed by one order to `Summary.total_items_sold`. -/
def itemsDelta (o : Order) : ℤ := (pyIntField o.quantity).getD 0

/-! ## Generic lemmas about the dict and sort models -/

theorem bump_snd_sum (m : List (String × Nat)) (k : String) :
    ((bump m k).map Prod.snd).sum = (m.map Prod.snd).sum + 1 := by
  induction m with
  | nil => simp [bump]
  | cons p rest ih =>
    obtain ⟨k', v⟩ := p
    by_cases h : k' = k <;> simp [bump, h, ih] <;> omega

theorem countOf_bump (m : List (String × Nat)) (k k' : String) :
    countOf (bump m k) k' = countOf m k' + (if k' = k then 1 else 0) := by
  induction m with
  | nil =>
    by_cases h : k' = k
    · subst h; simp [bump, countOf, lookupA]
    · simp [bump, countOf, lookupA, h, Ne.symm h]
  | cons p rest ih =>
    obtain ⟨a, v⟩ := p
    by_cases ha : a = k
    · subst ha
      by_cases h : k' = a
      · subst h; simp [bump, countOf, lookupA]
      · simp [bump, countOf, lookupA, h, Ne.symm h]
    · by_cases h : a = k'
      · have hk : ¬(k' = k) := fun h' => ha (h.trans h')
        simp [bump, countOf, lookupA, ha, h, hk]
      · simp only [bump, countOf, lookupA, if_neg ha, if_neg h]
        exact ih

theorem bump_keys (m : List (String × Nat)) (k : String) :
    (bump m k).map Prod.fst =
      if k ∈ m.map Prod.fst then m.map Prod.fst else m.map Prod.fst ++ [k] := by
  induction m with
  | nil => simp [bump]
  | cons p rest ih =>
    obtain ⟨a, v⟩ := p
    by_cases ha : a = k
    · simp [bump, ha]
    · by_cases hk : k ∈ rest.map Prod.fst <;>
        simp [bump, ha, hk, ih, Ne.symm ha]

theorem updAssoc_keys {β : Type} (m : List (String × β)) (k : String) (d : β) (f : β → β) :
    (updAssoc m k d f).map Prod.fst =
      if k ∈ m.map Prod.fst then m.map Prod.fst else m.map Prod.fst ++ [k] := by
  induction m with
  | nil => simp [updAssoc]
  | cons p rest ih =>
    obtain ⟨a, v⟩ := p
    by_cases ha : a = k
    · simp [updAssoc, ha]
    · by_cases hk : k ∈ rest.map Prod.fst <;>
        simp [updAssoc, ha, hk, ih, Ne.symm ha]

theorem updAssoc_updAssoc {β : Type} (m : List (String × β)) (k : String) (d : β) (f g : β → β) :
    updAssoc (updAssoc m k d f) k d g = updAssoc m k d (fun v => g (f v)) := by
  induction m with
  | nil => simp [updAssoc]
  | cons p rest ih =>
    obtain ⟨a, v⟩ := p
    by_cases ha : a = k <;> simp [updAssoc, ha, ih]

theorem updAssoc_forall {β : Type} (P : β → Prop) (m : List (String × β)) (k : String)
    (d : β) (f : β → β) (h : ∀ p ∈ m, P p.2) (hd : P (f d))
    (hf : ∀ v, P v → P (f v)) : ∀ p ∈ updAssoc m k d f, P p.2 := by
  induction m with
  | nil =>
    intro p hp
    simp only [updAssoc, List.mem_singleton] at hp
    subst hp
    exact hd
  | cons q rest ih =>
    obtain ⟨a, v⟩ := q
    by_cases ha : a = k
    · simp only [updAssoc, if_pos ha]
      intro p hp
      rcases List.mem_cons.mp hp with h1 | h1
      · subst h1; exact hf v (h (a, v) (by simp))
      · exact h p (by simp [h1])
    · simp only [updAssoc, if_neg ha]
      intro p hp
      rcases List.mem_cons.mp hp with h1 | h1
      · subst h1; exact h (a, v) (by simp)
      · exact ih (fun p hp => h p (by simp [hp])) p h1

theorem lookupA_updAssoc_self {β : Type} (m : List (String × β)) (k : String) (d : β)
    (f : β → β) : lookupA (updAssoc m k d f) k = some (f ((lookupA m k).getD d)) := by
  induction m with
  | nil => simp [updAssoc, lookupA]
  | cons p rest ih =>
    obtain ⟨a, v⟩ := p
    by_cases ha : a = k <;> simp [updAssoc, lookupA, ha, ih]

theorem lookupA_updAssoc_ne {β : Type} (m : List (String × β)) (k k' : String) (d : β)
    (f : β → β) (h : k' ≠ k) : lookupA (updAssoc m k d f) k' = lookupA m k' := by
  induction m with
  | nil => simp [updAssoc, lookupA, Ne.symm h]
  | cons p rest ih =>
    obtain ⟨a, v⟩ := p
    by_cases ha : a = k
    · subst ha
      simp [updAssoc, lookupA, Ne.symm h]
    · simp [updAssoc, lookupA, ha, ih]

theorem lookupA_map_value {β γ : Type} (g : β → γ) (m : List (String × β)) (k : String) :
    lookupA (m.map (fun p => (p.1, g p.2))) k = (lookupA m k).map g := by
  induction m with
  | nil => simp [lookupA]
  | cons p rest ih =>
    obtain ⟨a, v⟩ := p
    by_cases ha : a = k <;> simp [lookupA, ha, ih]

theorem mem_insStable {α : Type} (keep : α → α → Bool) (x : α) (l : List α) (a : α) :
    a ∈ insStable keep x l ↔ a = x ∨ a ∈ l := by
  induction l with
  | nil => simp [insStable]
  | cons y ys ih =>
    cases h : keep x y <;> simp [insStable, h, ih] <;> tauto

theorem insStable_perm {α : Type} (keep : α → α → Bool) (x : α) (l : List α) :
    (insStable keep x l).Perm (x :: l) := by
  induction l with
  | nil => simp [insStable]
  | cons y ys ih =>
    cases h : keep x y
    · simp [insStable, h]
    · have e : insStable keep x (y :: ys) = y :: insStable keep x ys := by
        simp [insStable, h]
      rw [e]
      exact (ih.cons y).trans (List.Perm.swap x y ys)

theorem stableSort_perm {α : Type} (keep : α → α → Bool) (l : List α) :
    (stableSort keep l).Perm l := by
  suffices h : ∀ (l acc : List α),
      (l.foldl (fun acc x => insStable keep x acc) acc).Perm (acc ++ l) by
    simpa using h l []
  intro l
  induction l with
  | nil => simp
  | cons x xs ih =>
    intro acc
    refine (ih (insStable keep x acc)).trans ?_
    refine (List.Perm.append_right xs (insStable_perm keep x acc)).trans ?_
    exact (List.perm_middle).symm

theorem insStable_pairwise {α : Type} (keep : α → α → Bool) (T : α → α → Prop)
    (total : ∀ a b, keep a b = true ∨ keep b a = true)
    (htrans : ∀ a b c, keep a b = true → keep b c = true → keep a c = true)
    (x : α) (l : List α)
    (hl : l.Pairwise (fun a b => keep a b = false ∨ (keep a b = true ∧ keep b a = true ∧ T a b)))
    (hx : ∀ z ∈ l, T z x) :
    (insStable keep x l).Pairwise
      (fun a b => keep a b = false ∨ (keep a b = true ∧ keep b a = true ∧ T a b)) := by
  induction l with
  | nil => simp [insStable]
  | cons y ys ih =>
    rcases List.pairwise_cons.mp hl with ⟨hy, hys⟩
    cases hxy : keep x y
    · have e : insStable keep x (y :: ys) = x :: y :: ys := by simp [insStable, hxy]
      rw [e]
      refine List.pairwise_cons.mpr ⟨?_, List.pairwise_cons.mpr ⟨hy, hys⟩⟩
      intro w hw
      rcases List.mem_cons.mp hw with h1 | h1
      · subst h1; exact Or.inl hxy
      · left
        rcases hy w h1 with h2 | ⟨h2, h3, _⟩
        · cases hww : keep x w
          · rfl
          · rcases total y w with h4 | h4
            · exact absurd h4 (by simp [h2])
            · exact absurd (htrans x w y hww h4) (by simp [hxy])
        · cases hww : keep x w
          · rfl
          · exact absurd (htrans x w y hww h3) (by simp [hxy])
    · have e : insStable keep x (y :: ys) = y :: insStable keep x ys := by
        simp [insStable, hxy]
      rw [e]
      refine List.pairwise_cons.mpr ⟨?_, ih hys (fun z hz => hx z (by simp [hz]))⟩
      intro w hw
      rcases (mem_insStable keep x ys w).mp hw with h1 | h1
      · rw [h1]
        cases hyx : keep y x
        · exact Or.inl rfl
        · exact Or.inr ⟨rfl, hxy, hx y (by simp)⟩
      · exact hy w h1

theorem stableSort_pairwise {α : Type} (keep : α → α → Bool) (T : α → α → Prop)
    (total : ∀ a b, keep a b = true ∨ keep b a = true)
    (htrans : ∀ a b c, keep a b = true → keep b c = true → keep a c = true)
    (l : List α) (hT : l.Pairwise T) :
    (stableSort keep l).Pairwise
      (fun a b => keep a b = false ∨ (keep a b = true ∧ keep b a = true ∧ T a b)) := by
  suffices h : ∀ (l acc : List α), l.Pairwise T →
      acc.Pairwise (fun a b => keep a b = false ∨ (keep a b = true ∧ keep b a = true ∧ T a b)) →
      (∀ x ∈ l, ∀ z ∈ acc, T z x) →
      (l.foldl (fun acc x => insStable keep x acc) acc).Pairwise
        (fun a b => keep a b = false ∨ (keep a b = true ∧ keep b a = true ∧ T a b)) by
    exact h l [] hT (by simp) (by simp)
  intro l
  induction l with
  | nil => intro acc _ hacc _; simpa using hacc
  | cons x xs ih =>
    intro acc hl hacc hTacc
    rcases List.pairwise_cons.mp hl with ⟨hx, hxs⟩
    refine ih (insStable keep x acc) hxs ?_ ?_
    · exact insStable_pairwise keep T total htrans x acc hacc (fun z hz => hTacc x (by simp) z hz)
    · intro w hw z hz
      rcases (mem_insStable keep x acc z).mp hz with h1 | h1
      · subst h1; exact hx w hw
      · exact hTacc w (by simp [hw]) z h1

/-! ## The summary step in closed form -/

theorem summaryStep_eq (s : Summary) (o : Order) :
    summaryStep s o = Summary.mk s.total_orders
      (bump s.by_status (o.order_status.getD "Unknown"))
      (bump s.by_marketplace (o.sales_channel.getD "Unknown"))
      (bump s.by_country (o.ship_country.getD "Unknown"))
      (bump s.by_fulfillment (o.fulfillment_channel.getD "Unknown"))
      (s.total_revenue + revDelta o) (s.total_tax + taxDelta o)
      (s.total_shipping + shipDelta o) (s.total_items_sold + itemsDelta o) := by
  unfold summaryStep revDelta taxDelta shipDelta itemsDelta
  by_cases hs : o.order_status.getD "Unknown" = "Shipped" <;>
    cases hp : pyFloatField o.item_price <;>
    cases ht : pyFloatField o.item_tax <;>
    cases hsp : pyFloatField o.shipping_price <;>
    cases hq : pyIntField o.quantity <;>
    simp [hs, hp, ht, hsp, hq]

theorem foldl_summaryStep_fixed (l : List Order) (s : Summary) :
    (l.foldl summaryStep s).total_orders = s.total_orders ∧
    ((l.foldl summaryStep s).by_status.map Prod.snd).sum =
      (s.by_status.map Prod.snd).sum + l.length := by
  induction l generalizing s with
  | nil => simp
  | cons o rest ih =>
    rcases ih (summaryStep s o) with ⟨h1, h2⟩
    refine ⟨?_, ?_⟩
    · rw [List.foldl_cons, h1, summaryStep_eq]
    · rw [List.foldl_cons, h2, summaryStep_eq]
      simp only [bump_snd_sum, List.length_cons]
      omega

theorem get_summary_total_orders (orders : List Order) :
    (get_summary orders).total_orders = orders.length := by
  unfold get_summary
  rw [(foldl_summaryStep_fixed orders (initSummary orders.length)).1]
  rfl

/-- C5: for every input collection, the sum over all keys of
`Summary.by_status` equals `Summary.total_orders`: every record contributes
to exactly one status bucket. -/
theorem by_status_partitions_total_orders (orders : List Order) :
    ((get_summary orders).by_status.map Prod.snd).sum = (get_summary orders).total_orders := by
  rw [get_summary_total_orders]
  unfold get_summary
  rw [(foldl_summaryStep_fixed orders (initSummary orders.length)).2]
  simp [initSummary]

/-- C8: on an empty record collection every aggregator returns, without
raising, a structurally valid result whose counters and monetary totals are
zero and whose grouping maps and sequences are empty. -/
theorem empty_input_all_aggregators_zero :
    get_summary [] = ⟨0, [], [], [], [], 0, 0, 0, 0⟩ ∧
    get_products_summary [] = [] ∧
    get_monthly_trends [] = [] ∧
    get_fba_fbm_analysis [] = ⟨⟨0, 0, 0, 0⟩, ⟨0, 0, 0, 0⟩, [], []⟩ ∧
    get_business_analysis [] = ⟨⟨0, 0, 0, 0⟩, ⟨0, 0, 0, 0⟩, [], []⟩ ∧
    get_promotions_analysis [] = ⟨0, [], [], []⟩ ∧
    get_market_monthly_analysis [] = [] :=
  ⟨rfl, rfl, rfl, rfl, rfl, rfl, rfl⟩

/-! ## The monthly-trends step in closed form -/

/-- The month key a record is bucketed under, `none` when the record is
skipped (empty or unparsable purchase date). -/
def parseMonthGuard (o : Order) : Option String :=
  if o.purchase_date.getD "" = "" then none else parseMonth (o.purchase_date.getD "")

/-- Composite update applied to the month bucket of one record by
`get_monthly_trends` (the collapse of the sequential `defaultdict`
mutations on the same key). -/
def monthUpd (o : Order) (e : MonthStats) : MonthStats :=
  let status := o.order_status.getD ""
  let e := { e with orders := e.orders + 1 }
  let e :=
    if status = "Shipped" then { e with shipped := e.shipped + 1 }
    else if status = "Cancelled" then { e with cancelled := e.cancelled + 1 }
    else if status = "Pending" then { e with pending := e.pending + 1 }
    else e
  match pyIntField o.quantity with
  | none => e
  | some q =>
    let e := { e with items := e.items + q }
    if status = "Shipped" then
      match pyFloatField o.item_price with
      | none => e
      | some ip => { e with revenue := e.revenue + ip }
    else e

theorem monthlyStep_collapse (acc : List (String × MonthStats)) (o : Order) :
    monthlyStep acc o =
      match parseMonthGuard o with
      | none => acc
      | some mk => updAssoc acc mk initMonth (monthUpd o) := by
  unfold monthlyStep parseMonthGuard monthUpd
  by_cases hpd : o.purchase_date.getD "" = ""
  · simp [hpd]
  · simp only [hpd, if_neg hpd]
    cases hm : parseMonth (o.purchase_date.getD "") with
    | none => simp
    | some mk =>
      simp only
      by_cases h1 : o.order_status.getD "" = "Shipped" <;>
        by_cases h2 : o.order_status.getD "" = "Cancelled" <;>
        by_cases h3 : o.order_status.getD "" = "Pending" <;>
        cases hq : pyIntField o.quantity <;>
        cases hp : pyFloatField o.item_price <;>
        simp [h1, h2, h3, hq, hp, updAssoc_updAssoc]

/-! ## C6: monthly trend keys -/

theorem dropWhile_head_false (p : Char → Bool) :
    ∀ (l : List Char) (c : Char) (cs : List Char), l.dropWhile p = c :: cs → p c = false := by
  intro l
  induction l with
  | nil => intro c cs h; exact absurd h (by simp)
  | cons a l ih =>
    intro c cs h
    rw [List.dropWhile_cons] at h
    by_cases hpa : p a = true
    · rw [if_pos hpa] at h
      exact ih c cs h
    · rw [if_neg hpa] at h
      have hac : a = c := (List.cons.inj h).1
      rw [← hac]
      cases hpa2 : p a
      · rfl
      · exact absurd hpa2 hpa

theorem mem_of_mem_dropWhile (p : Char → Bool) :
    ∀ (l : List Char) (x : Char), x ∈ l.dropWhile p → x ∈ l := by
  intro l
  induction l with
  | nil => intro x h; simpa using h
  | cons a l ih =>
    intro x h
    rw [List.dropWhile_cons] at h
    by_cases hpa : p a = true
    · rw [if_pos hpa] at h
      exact List.mem_cons_of_mem a (ih x h)
    · rw [if_neg hpa] at h
      exact h

theorem dropWhile_eq_nil_all (p : Char → Bool) :
    ∀ (l : List Char), l.dropWhile p = [] → ∀ x ∈ l, p x = true := by
  intro l
  induction l with
  | nil => intro _ x hx; simp at hx
  | cons a l ih =>
    intro h x hx
    rw [List.dropWhile_cons] at h
    by_cases hpa : p a = true
    · rw [if_pos hpa] at h
      rcases List.mem_cons.mp hx with hx | hx
      · rw [hx]; exact hpa
      · exact ih h x hx
    · rw [if_neg hpa] at h
      exact absurd h (by simp)

theorem glibcKeyTail_spec (yd : List Char) (m1 m2 : Char)
    (hyd : ∀ c ∈ yd, c.isDigit = true) (h1 : m1.isDigit = true) (h2 : m2.isDigit = true) :
    glibcKeyTail (yd ++ '-' :: m1 :: m2 :: []) = true := by
  induction yd with
  | nil => simp [glibcKeyTail, h1, h2]
  | cons c cs ih =>
    have hc : c.isDigit = true := hyd c (by simp)
    have hcd : (c == '-') = false := by
      cases hbe : c == '-'
      · rfl
      · have hce : c = '-' := eq_of_beq hbe
        rw [hce] at hc
        exact absurd hc (by decide)
    rw [List.cons_append]
    simp only [glibcKeyTail, hcd, hc]
    simp only [Bool.false_eq_true, if_false, Bool.true_and]
    exact ih (fun x hx => hyd x (by simp [hx]))

theorem parseMonth_isGlibcMonthKey (s k : String) (h : parseMonth s = some k) :
    isGlibcMonthKey k = true := by
  unfold parseMonth at h
  cases hf : fromisoMonth (replaceZ s.toList) with
  | none => rw [hf] at h; exact absurd h (by simp)
  | some cs =>
    rw [hf] at h
    have hk : cs.asString = k := by simpa using h
    unfold fromisoMonth at hf
    split at hf
    case h_2 => exact absurd hf (by simp)
    case h_1 y1 y2 y3 y4 hy m1 m2 rest heq =>
      split at hf
      case isFalse => exact absurd hf (by simp)
      case isTrue hcond =>
        have hcs : ([y1, y2, y3, y4].dropWhile (fun c => c == '0')) ++ '-' :: m1 :: m2 :: []
            = cs := Option.some.inj hf
        subst hcs
        subst hk
        simp only [Bool.and_eq_true] at hcond
        obtain ⟨⟨⟨⟨⟨⟨⟨hy1, hy2⟩, hy3⟩, hy4⟩, hhy⟩, hyr⟩, hvd⟩, hdt⟩ := hcond
        have hm12 : m1.isDigit = true ∧ m2.isDigit = true := by
          unfold validDigit2 at hvd
          simp only [Bool.and_eq_true] at hvd
          exact ⟨hvd.1.1.1, hvd.1.1.2⟩
        have hpos : 0 < digitsToNat [y1, y2, y3, y4] := of_decide_eq_true hyr
        have hne : [y1, y2, y3, y4].dropWhile (fun c => c == '0') ≠ [] := by
          intro hnil
          have hall := dropWhile_eq_nil_all (fun c => c == '0') [y1, y2, y3, y4] hnil
          have e1 : y1 = '0' := eq_of_beq (hall y1 (by simp))
          have e2 : y2 = '0' := eq_of_beq (hall y2 (by simp))
          have e3 : y3 = '0' := eq_of_beq (hall y3 (by simp))
          have e4 : y4 = '0' := eq_of_beq (hall y4 (by simp))
          rw [e1, e2, e3, e4] at hpos
          exact absurd hpos (by decide)
        obtain ⟨c, cs', hcc⟩ := List.exists_cons_of_ne_nil hne
        have hcd : c.isDigit = true := by
          have hmem : c ∈ [y1, y2, y3, y4] :=
            mem_of_mem_dropWhile (fun c => c == '0') [y1, y2, y3, y4] c (by rw [hcc]; simp)
          simp only [List.mem_cons, List.not_mem_nil, or_false] at hmem
          rcases hmem with rfl | rfl | rfl | rfl
          · exact hy1
          · exact hy2
          · exact hy3
          · exact hy4
        have hc0 : (c == '0') = false :=
          dropWhile_head_false (fun c => c == '0') [y1, y2, y3, y4] c cs' hcc
        have hcsd : ∀ x ∈ cs', x.isDigit = true := by
          intro x hx
          have hmem : x ∈ [y1, y2, y3, y4] :=
            mem_of_mem_dropWhile (fun c => c == '0') [y1, y2, y3, y4] x
              (by rw [hcc]; simp [hx])
          simp only [List.mem_cons, List.not_mem_nil, or_false] at hmem
          rcases hmem with rfl | rfl | rfl | rfl
          · exact hy1
          · exact hy2
          · exact hy3
          · exact hy4
        rw [hcc]
        show (c.isDigit && !(c == '0') && glibcKeyTail (cs' ++ '-' :: m1 :: m2 :: [])) = true
        simp only [Bool.and_eq_true]
        refine ⟨⟨hcd, ?_⟩, glibcKeyTail_spec cs' m1 m2 hcsd hm12.1 hm12.2⟩
        rw [hc0]
        rfl

theorem parseMonthGuard_eq_some (o : Order) (mk : String)
    (hg : parseMonthGuard o = some mk) : parseMonth (o.purchase_date.getD "") = some mk := by
  unfold parseMonthGuard at hg
  by_cases hpd : o.purchase_date.getD "" = ""
  · rw [if_pos hpd] at hg; exact absurd hg (by simp)
  · rwa [if_neg hpd] at hg

theorem monthly_fold_keys (orders : List Order) :
    (∀ k ∈ (orders.foldl monthlyStep []).map Prod.fst, isGlibcMonthKey k = true) ∧
    ((orders.foldl monthlyStep []).map Prod.fst).Nodup := by
  suffices h : ∀ (l : List Order) (acc : List (String × MonthStats)),
      (∀ k ∈ acc.map Prod.fst, isGlibcMonthKey k = true) → (acc.map Prod.fst).Nodup →
      (∀ k ∈ (l.foldl monthlyStep acc).map Prod.fst, isGlibcMonthKey k = true) ∧
      ((l.foldl monthlyStep acc).map Prod.fst).Nodup by
    exact h orders [] (by simp) (by simp)
  intro l
  induction l with
  | nil => intro acc h1 h2; exact ⟨h1, h2⟩
  | cons o rest ih =>
    intro acc h1 h2
    rw [List.foldl_cons]
    apply ih
    · rw [monthlyStep_collapse]
      cases hg : parseMonthGuard o with
      | none => exact h1
      | some mk =>
        simp only
        rw [updAssoc_keys]
        split
        · exact h1
        · intro k hk
          rcases List.mem_append.mp hk with hk | hk
          · exact h1 k hk
          · have hkmk : k = mk := by simpa using hk
            subst hkmk
            exact parseMonth_isGlibcMonthKey _ k (parseMonthGuard_eq_some o k hg)
    · rw [monthlyStep_collapse]
      cases hg : parseMonthGuard o with
      | none => exact h2
      | some mk =>
        simp only
        rw [updAssoc_keys]
        split
        · exact h2
        · rename_i hmem
          simp [List.nodup_append, h2, hmem]

/-- A record whose purchase date has a three-digit-printing year. -/
def wOrder5 : Order where
  purchase_date := some "0999-01-15T00:00:00Z"

/-- Counterexample to C6 as stated: for a record whose purchase date has the
year 0999, the program key is `strftime('%Y-%m')` = `999-01` — glibc `%Y`
does not zero-pad years below 1000 — so a key of the monthly trend mapping
fails the claimed pattern `YYYY-MM`. -/
theorem monthly_trend_keys_pattern_counterexample :
    parseMonth "0999-01-15T00:00:00Z" = some "999-01" ∧
    (get_monthly_trends [wOrder5]).map Prod.fst = ["999-01"] ∧
    isMonthKey "999-01" = false := by
  refine ⟨by decide, by decide, by decide⟩

/-- C6 (amended): the keys of the monthly trend mapping are strictly
ascending in lexicographic order (hence pairwise distinct), and each is a
glibc `strftime('%Y-%m')` key: the bucket year's decimal digits without
zero-padding, a hyphen, and a two-digit month — the pattern `YYYY-MM`
exactly when the year lies in 1000..9999. -/
theorem monthly_trend_keys_sorted_and_glibc_pattern (orders : List Order) :
    (get_monthly_trends orders).Pairwise (fun a b => a.1 < b.1) ∧
    ∀ k ∈ (get_monthly_trends orders).map Prod.fst, isGlibcMonthKey k = true := by
  constructor
  · unfold get_monthly_trends
    have hT : (orders.foldl monthlyStep []).Pairwise
        (fun a b : String × MonthStats => a.1 ≠ b.1) :=
      (List.pairwise_map).mp (monthly_fold_keys orders).2
    have hP := stableSort_pairwise (fun x y : String × MonthStats => decide (y.1 ≤ x.1))
      (fun a b => a.1 ≠ b.1)
      (fun a b => by
        rcases le_total b.1 a.1 with h | h
        · exact Or.inl (decide_eq_true h)
        · exact Or.inr (decide_eq_true h))
      (fun a b c hab hbc =>
        decide_eq_true (le_trans (of_decide_eq_true hbc) (of_decide_eq_true hab)))
      (orders.foldl monthlyStep []) hT
    refine List.Pairwise.imp ?_ hP
    intro a b hab
    rcases hab with hab | ⟨hba, hab', hne⟩
    · exact lt_of_not_le (of_decide_eq_false hab)
    · exact absurd (le_antisymm (of_decide_eq_true hab') (of_decide_eq_true hba)) hne
  · intro k hk
    have hperm := stableSort_perm (fun x y : String × MonthStats => decide (y.1 ≤ x.1))
      (orders.foldl monthlyStep [])
    have hk' : k ∈ (orders.foldl monthlyStep []).map Prod.fst := by
      rcases List.mem_map.mp hk with ⟨p, hp, rfl⟩
      exact List.mem_map_of_mem _ (hperm.mem_iff.mp hp)
    exact (monthly_fold_keys orders).1 k hk'

/-- A concrete shipped order with a parseable timestamp and an unparsable
quantity, used by several witnesses. -/
def wOrder1 : Order where
  order_status := some "Shipped"
  item_price := some "10"
  item_tax := some "x"
  shipping_price := some "5"
  quantity := some "abc"
  purchase_date := some "2024-01-15T00:00:00Z"

/-- Witness for C6 (amended) at a concrete input. -/
theorem monthly_trend_keys_sorted_and_glibc_pattern_witness :
    isGlibcMonthKey "2024-01" = true :=
  (monthly_trend_keys_sorted_and_glibc_pattern [wOrder1]).2 "2024-01" (by decide)

/-! ## C10: per-month status counters are bounded by the order count -/

theorem monthUpd_bound (o : Order) (e : MonthStats)
    (h : e.shipped + e.cancelled + e.pending ≤ e.orders) :
    (monthUpd o e).shipped + (monthUpd o e).cancelled + (monthUpd o e).pending ≤
      (monthUpd o e).orders := by
  unfold monthUpd
  by_cases h1 : o.order_status.getD "" = "Shipped" <;>
    by_cases h2 : o.order_status.getD "" = "Cancelled" <;>
    by_cases h3 : o.order_status.getD "" = "Pending" <;>
    cases hq : pyIntField o.quantity <;>
    cases hp : pyFloatField o.item_price <;>
    simp [h1, h2, h3, hq, hp] <;> omega

/-- C10: in the monthly trend, for every month, shipped + cancelled +
pending is at most the month's order count: a record whose status is outside
the three tracked ones increments the order count but no status counter. -/
theorem monthly_status_counters_bounded (orders : List Order) :
    ∀ p ∈ get_monthly_trends orders,
      p.2.shipped + p.2.cancelled + p.2.pending ≤ p.2.orders := by
  have hfold : ∀ (l : List Order) (acc : List (String × MonthStats)),
      (∀ p ∈ acc, p.2.shipped + p.2.cancelled + p.2.pending ≤ p.2.orders) →
      ∀ p ∈ l.foldl monthlyStep acc,
        p.2.shipped + p.2.cancelled + p.2.pending ≤ p.2.orders := by
    intro l
    induction l with
    | nil => exact fun acc h => h
    | cons o rest ih =>
      intro acc h
      rw [List.foldl_cons]
      apply ih
      rw [monthlyStep_collapse]
      cases hg : parseMonthGuard o with
      | none => exact h
      | some mk =>
        exact updAssoc_forall
          (fun e => e.shipped + e.cancelled + e.pending ≤ e.orders) acc mk initMonth
          (monthUpd o) h (monthUpd_bound o initMonth (by simp [initMonth])) (monthUpd_bound o)
  intro p hp
  unfold get_monthly_trends at hp
  have hperm := stableSort_perm (fun x y : String × MonthStats => decide (y.1 ≤ x.1))
    (orders.foldl monthlyStep [])
  exact hfold orders [] (by simp) p (hperm.mem_iff.mp hp)

/-- Witness for C10 at a concrete input. -/
theorem monthly_status_counters_bounded_witness :
    ("2024-01", (⟨1, 0, 0, 1, 0, 0⟩ : MonthStats)).2.shipped +
      ("2024-01", (⟨1, 0, 0, 1, 0, 0⟩ : MonthStats)).2.cancelled +
      ("2024-01", (⟨1, 0, 0, 1, 0, 0⟩ : MonthStats)).2.pending ≤
      ("2024-01", (⟨1, 0, 0, 1, 0, 0⟩ : MonthStats)).2.orders :=
  monthly_status_counters_bounded [wOrder1] ("2024-01", ⟨1, 0, 0, 1, 0, 0⟩)
    (by simp [show get_monthly_trends [wOrder1] = [("2024-01", ⟨1, 0, 0, 1, 0, 0⟩)] from rfl])

/-! ## C7: records with no parseable timestamp -/

theorem parseMonthGuard_none (o : Order)
    (h : o.purchase_date.getD "" = "" ∨ parseMonth (o.purchase_date.getD "") = none) :
    parseMonthGuard o = none := by
  unfold parseMonthGuard
  by_cases hpd : o.purchase_date.getD "" = ""
  · rw [if_pos hpd]
  · rw [if_neg hpd]
    rcases h with h | h
    · exact absurd h hpd
    · exact h

theorem foldl_summaryStep_money (l : List Order) (s : Summary) :
    (l.foldl summaryStep s).total_revenue = s.total_revenue + (l.map revDelta).sum ∧
    (l.foldl summaryStep s).total_tax = s.total_tax + (l.map taxDelta).sum ∧
    (l.foldl summaryStep s).total_shipping = s.total_shipping + (l.map shipDelta).sum ∧
    (l.foldl summaryStep s).total_items_sold = s.total_items_sold + (l.map itemsDelta).sum := by
  induction l generalizing s with
  | nil => simp
  | cons o rest ih =>
    rcases ih (summaryStep s o) with ⟨h1, h2, h3, h4⟩
    refine ⟨?_, ?_, ?_, ?_⟩ <;>
      rw [List.foldl_cons] <;>
      simp only [h1, h2, h3, h4] <;>
      simp only [summaryStep_eq, List.map_cons, List.sum_cons] <;>
      ring

theorem foldl_summaryStep_counts (l : List Order) (s : Summary) (k : String) :
    countOf (l.foldl summaryStep s).by_status k =
      countOf s.by_status k + l.countP (fun o => k == o.order_status.getD "Unknown") ∧
    countOf (l.foldl summaryStep s).by_marketplace k =
      countOf s.by_marketplace k + l.countP (fun o => k == o.sales_channel.getD "Unknown") ∧
    countOf (l.foldl summaryStep s).by_country k =
      countOf s.by_country k + l.countP (fun o => k == o.ship_country.getD "Unknown") ∧
    countOf (l.foldl summaryStep s).by_fulfillment k =
      countOf s.by_fulfillment k + l.countP (fun o => k == o.fulfillment_channel.getD "Unknown") := by
  induction l generalizing s with
  | nil => simp
  | cons o rest ih =>
    rcases ih (summaryStep s o) with ⟨h1, h2, h3, h4⟩
    refine ⟨?_, ?_, ?_, ?_⟩ <;>
      rw [List.foldl_cons] <;>
      simp only [h1, h2, h3, h4] <;>
      simp only [summaryStep_eq, List.countP_cons, countOf_bump] <;>
      (first
        | (by_cases hk : k = o.order_status.getD "Unknown" <;> simp [hk, beq_iff_eq] <;> omega)
        | (by_cases hk : k = o.sales_channel.getD "Unknown" <;> simp [hk, beq_iff_eq] <;> omega)
        | (by_cases hk : k = o.ship_country.getD "Unknown" <;> simp [hk, beq_iff_eq] <;> omega)
        | (by_cases hk : k = o.fulfillment_channel.getD "Unknown" <;>
            simp [hk, beq_iff_eq] <;> omega))

/-- C7: a record whose purchase timestamp is absent or unparsable is
excluded from the monthly trend aggregator only: it changes nothing in
`get_monthly_trends`, while the summary still counts it normally in the
total order count, the four grouping counts (at the record's own keys),
revenue, tax, shipping and items. -/
theorem unparsable_date_excluded_from_monthly_only (l1 l2 : List Order) (o : Order)
    (h : o.purchase_date.getD "" = "" ∨ parseMonth (o.purchase_date.getD "") = none) :
    get_monthly_trends (l1 ++ o :: l2) = get_monthly_trends (l1 ++ l2) ∧
    (get_summary (l1 ++ o :: l2)).total_orders = (get_summary (l1 ++ l2)).total_orders + 1 ∧
    countOf (get_summary (l1 ++ o :: l2)).by_status (o.order_status.getD "Unknown") =
      countOf (get_summary (l1 ++ l2)).by_status (o.order_status.getD "Unknown") + 1 ∧
    countOf (get_summary (l1 ++ o :: l2)).by_marketplace (o.sales_channel.getD "Unknown") =
      countOf (get_summary (l1 ++ l2)).by_marketplace (o.sales_channel.getD "Unknown") + 1 ∧
    countOf (get_summary (l1 ++ o :: l2)).by_country (o.ship_country.getD "Unknown") =
      countOf (get_summary (l1 ++ l2)).by_country (o.ship_country.getD "Unknown") + 1 ∧
    countOf (get_summary (l1 ++ o :: l2)).by_fulfillment (o.fulfillment_channel.getD "Unknown") =
      countOf (get_summary (l1 ++ l2)).by_fulfillment (o.fulfillment_channel.getD "Unknown") + 1 ∧
    (get_summary (l1 ++ o :: l2)).total_revenue =
      (get_summary (l1 ++ l2)).total_revenue + revDelta o ∧
    (get_summary (l1 ++ o :: l2)).total_tax = (get_summary (l1 ++ l2)).total_tax + taxDelta o ∧
    (get_summary (l1 ++ o :: l2)).total_shipping =
      (get_summary (l1 ++ l2)).total_shipping + shipDelta o ∧
    (get_summary (l1 ++ o :: l2)).total_items_sold =
      (get_summary (l1 ++ l2)).total_items_sold + itemsDelta o := by
  have hskip : ∀ acc, monthlyStep acc o = acc := by
    intro acc
    rw [monthlyStep_collapse, parseMonthGuard_none o h]
  refine ⟨?_, ?_, ?_, ?_, ?_, ?_, ?_, ?_, ?_, ?_⟩
  · unfold get_monthly_trends
    rw [List.foldl_append, List.foldl_cons, hskip, ← List.foldl_append]
  · rw [get_summary_total_orders, get_summary_total_orders]
    simp
    omega
  all_goals
    unfold get_summary
  · rw [(foldl_summaryStep_counts (l1 ++ o :: l2) _ _).1,
      (foldl_summaryStep_counts (l1 ++ l2) _ _).1]
    simp [initSummary, countOf, lookupA, List.countP_append, List.countP_cons]
    omega
  · rw [(foldl_summaryStep_counts (l1 ++ o :: l2) _ _).2.1,
      (foldl_summaryStep_counts (l1 ++ l2) _ _).2.1]
    simp [initSummary, countOf, lookupA, List.countP_append, List.countP_cons]
    omega
  · rw [(foldl_summaryStep_counts (l1 ++ o :: l2) _ _).2.2.1,
      (foldl_summaryStep_counts (l1 ++ l2) _ _).2.2.1]
    simp [initSummary, countOf, lookupA, List.countP_append, List.countP_cons]
    omega
  · rw [(foldl_summaryStep_counts (l1 ++ o :: l2) _ _).2.2.2,
      (foldl_summaryStep_counts (l1 ++ l2) _ _).2.2.2]
    simp [initSummary, countOf, lookupA, List.countP_append, List.countP_cons]
    omega
  · rw [(foldl_summaryStep_money (l1 ++ o :: l2) _).1, (foldl_summaryStep_money (l1 ++ l2) _).1]
    simp only [initSummary, List.map_append, List.sum_append, List.map_cons, List.sum_cons]
    ring
  · rw [(foldl_summaryStep_money (l1 ++ o :: l2) _).2.1,
      (foldl_summaryStep_money (l1 ++ l2) _).2.1]
    simp only [initSummary, List.map_append, List.sum_append, List.map_cons, List.sum_cons]
    ring
  · rw [(foldl_summaryStep_money (l1 ++ o :: l2) _).2.2.1,
      (foldl_summaryStep_money (l1 ++ l2) _).2.2.1]
    simp only [initSummary, List.map_append, List.sum_append, List.map_cons, List.sum_cons]
    ring
  · rw [(foldl_summaryStep_money (l1 ++ o :: l2) _).2.2.2,
      (foldl_summaryStep_money (l1 ++ l2) _).2.2.2]
    simp only [initSummary, List.map_append, List.sum_append, List.map_cons, List.sum_cons]
    ring

/-- A concrete shipped order with no purchase date at all. -/
def wOrder2 : Order where
  order_status := some "Shipped"
  item_price := some "10"

/-- Witness for C7 at a concrete input. -/
theorem unparsable_date_excluded_from_monthly_only_witness :
    get_monthly_trends [wOrder2] = get_monthly_trends [] ∧
    (get_summary [wOrder2]).total_orders = (get_summary []).total_orders + 1 :=
  ⟨(unparsable_date_excluded_from_monthly_only [] [] wOrder2 (Or.inl rfl)).1,
   (unparsable_date_excluded_from_monthly_only [] [] wOrder2 (Or.inl rfl)).2.1⟩

/-! ## C3: the two binary classifications partition the global totals -/

theorem getD_unknown_shipped (o : Order) :
    (o.order_status.getD "Unknown" = "Shipped") ↔ (o.order_status.getD "" = "Shipped") := by
  cases o.order_status <;> simp

theorem fbaStep_totals (a : FbaFbm) (o : Order) :
    (fbaStep a o).fba.orders + (fbaStep a o).fbm.orders = a.fba.orders + a.fbm.orders + 1 ∧
    (fbaStep a o).fba.revenue + (fbaStep a o).fbm.revenue =
      a.fba.revenue + a.fbm.revenue + revDelta o := by
  unfold fbaStep revDelta
  cases hf : (o.fulfillment_channel.getD "Unknown" == "Amazon") <;>
    by_cases hc : o.order_status.getD "" = "Cancelled" <;>
    cases hq : pyIntField o.quantity <;>
    by_cases hs : o.order_status.getD "" = "Shipped" <;>
    cases hp : pyFloatField o.item_price <;>
    by_cases hpd : o.purchase_date.getD "" = "" <;>
    cases hm : parseMonth (o.purchase_date.getD "") <;>
    simp [hf, hc, hq, hs, hp, hpd, hm, getD_unknown_shipped]
  all_goals try exact And.intro True.intro True.intro
  all_goals try exact And.intro (by omega) (by ring)
  all_goals try omega
  all_goals try ring

theorem businessStep_totals (a : BusinessStats) (o : Order) :
    (businessStep a o).business.orders + (businessStep a o).consumer.orders =
      a.business.orders + a.consumer.orders + 1 ∧
    (businessStep a o).business.revenue + (businessStep a o).consumer.revenue =
      a.business.revenue + a.consumer.revenue + revDelta o := by
  unfold businessStep revDelta
  cases hf : isBusinessOf o <;>
    by_cases hc : o.order_status.getD "" = "Cancelled" <;>
    cases hq : pyIntField o.quantity <;>
    by_cases hs : o.order_status.getD "" = "Shipped" <;>
    cases hp : pyFloatField o.item_price <;>
    by_cases hpd : o.purchase_date.getD "" = "" <;>
    cases hm : parseMonth (o.purchase_date.getD "") <;>
    simp [hf, hc, hq, hs, hp, hpd, hm, getD_unknown_shipped]
  all_goals try exact And.intro True.intro True.intro
  all_goals try exact And.intro (by omega) (by ring)
  all_goals try omega
  all_goals try ring

theorem foldl_fbaStep_totals (l : List Order) (a : FbaFbm) :
    (l.foldl fbaStep a).fba.orders + (l.foldl fbaStep a).fbm.orders =
      a.fba.orders + a.fbm.orders + l.length ∧
    (l.foldl fbaStep a).fba.revenue + (l.foldl fbaStep a).fbm.revenue =
      a.fba.revenue + a.fbm.revenue + (l.map revDelta).sum := by
  induction l generalizing a with
  | nil => simp
  | cons o rest ih =>
    rcases ih (fbaStep a o) with ⟨h1, h2⟩
    constructor
    · rw [List.foldl_cons, h1, (fbaStep_totals a o).1, List.length_cons]
      ring
    · rw [List.foldl_cons, h2, (fbaStep_totals a o).2, List.map_cons, List.sum_cons]
      ring

theorem foldl_businessStep_totals (l : List Order) (a : BusinessStats) :
    (l.foldl businessStep a).business.orders + (l.foldl businessStep a).consumer.orders =
      a.business.orders + a.consumer.orders + l.length ∧
    (l.foldl businessStep a).business.revenue + (l.foldl businessStep a).consumer.revenue =
      a.business.revenue + a.consumer.revenue + (l.map revDelta).sum := by
  induction l generalizing a with
  | nil => simp
  | cons o rest ih =>
    rcases ih (businessStep a o) with ⟨h1, h2⟩
    constructor
    · rw [List.foldl_cons, h1, (businessStep_totals a o).1, List.length_cons]
      ring
    · rw [List.foldl_cons, h2, (businessStep_totals a o).2, List.map_cons, List.sum_cons]
      ring

/-- C3: FBA/FBM and Business/Consumer are total classifications with the
same revenue rule as the summary, so their orders and revenues partition
`Summary.total_orders` and `Summary.total_revenue` exactly. -/
theorem classifications_partition_totals (orders : List Order) :
    (get_fba_fbm_analysis orders).fba.orders + (get_fba_fbm_analysis orders).fbm.orders =
      (get_summary orders).total_orders ∧
    (get_fba_fbm_analysis orders).fba.revenue + (get_fba_fbm_analysis orders).fbm.revenue =
      (get_summary orders).total_revenue ∧
    (get_business_analysis orders).business.orders +
        (get_business_analysis orders).consumer.orders = (get_summary orders).total_orders ∧
    (get_business_analysis orders).business.revenue +
        (get_business_analysis orders).consumer.revenue = (get_summary orders).total_revenue := by
  have hfba : (get_fba_fbm_analysis orders).fba =
      (orders.foldl fbaStep ⟨⟨0, 0, 0, 0⟩, ⟨0, 0, 0, 0⟩, [], []⟩).fba := rfl
  have hfbm : (get_fba_fbm_analysis orders).fbm =
      (orders.foldl fbaStep ⟨⟨0, 0, 0, 0⟩, ⟨0, 0, 0, 0⟩, [], []⟩).fbm := rfl
  have hbus : (get_business_analysis orders).business =
      (orders.foldl businessStep ⟨⟨0, 0, 0, 0⟩, ⟨0, 0, 0, 0⟩, [], []⟩).business := rfl
  have hcon : (get_business_analysis orders).consumer =
      (orders.foldl businessStep ⟨⟨0, 0, 0, 0⟩, ⟨0, 0, 0, 0⟩, [], []⟩).consumer := rfl
  have hrev : (get_summary orders).total_revenue = (orders.map revDelta).sum := by
    unfold get_summary
    rw [(foldl_summaryStep_money orders (initSummary orders.length)).1]
    simp [initSummary]
  rw [hfba, hfbm, hbus, hcon, hrev, get_summary_total_orders]
  rcases foldl_fbaStep_totals orders ⟨⟨0, 0, 0, 0⟩, ⟨0, 0, 0, 0⟩, [], []⟩ with ⟨f1, f2⟩
  rcases foldl_businessStep_totals orders ⟨⟨0, 0, 0, 0⟩, ⟨0, 0, 0, 0⟩, [], []⟩ with ⟨b1, b2⟩
  rw [f1, f2, b1, b2]
  refine ⟨by simp, by simp, by simp, by simp⟩

/-! ## The channel steps in closed form, and C9 -/

/-- Per-channel totals update applied by `get_fba_fbm_analysis` /
`get_business_analysis` to the record's own class. -/
def chUpd (o : Order) (c : ChannelStats) : ChannelStats :=
  let status := o.order_status.getD ""
  let c := { c with orders := c.orders + 1 }
  let c := if status = "Cancelled" then { c with cancelled := c.cancelled + 1 } else c
  let c :=
    match pyIntField o.quantity with
    | none => c
    | some q => { c with items := c.items + q }
  if status = "Shipped" then
    match pyFloatField o.item_price with
    | none => c
    | some ip => { c with revenue := c.revenue + ip }
  else c

/-- Month key and price a record contributes to the monthly sub-series of
the channel analyses; `none` when the record is not shipped, its price does
not convert, or its date is empty or unparsable. -/
def shipMonthlyGuard (o : Order) : Option (String × ℚ) :=
  if o.order_status.getD "" = "Shipped" then
    match pyFloatField o.item_price with
    | none => none
    | some ip =>
      if o.purchase_date.getD "" ≠ "" then
        (parseMonth (o.purchase_date.getD "")).map (fun mk => (mk, ip))
      else none
  else none

/-- Monthly sub-series update of the channel analyses. -/
def mcrUpd (o : Order) (m : List (String × MonthlyCR)) : List (String × MonthlyCR) :=
  match shipMonthlyGuard o with
  | none => m
  | some (mk, ip) => updAssoc m mk ⟨0, 0⟩ (fun e => ⟨e.orders + 1, e.revenue + ip⟩)

theorem fbaStep_eq (a : FbaFbm) (o : Order) :
    fbaStep a o =
      if o.fulfillment_channel.getD "Unknown" == "Amazon" then
        { a with fba := chUpd o a.fba, monthly_fba := mcrUpd o a.monthly_fba }
      else
        { a with fbm := chUpd o a.fbm, monthly_fbm := mcrUpd o a.monthly_fbm } := by
  unfold fbaStep chUpd mcrUpd shipMonthlyGuard
  cases hf : (o.fulfillment_channel.getD "Unknown" == "Amazon") <;>
    by_cases hc : o.order_status.getD "" = "Cancelled" <;>
    cases hq : pyIntField o.quantity <;>
    by_cases hs : o.order_status.getD "" = "Shipped" <;>
    cases hp : pyFloatField o.item_price <;>
    by_cases hpd : o.purchase_date.getD "" = "" <;>
    cases hm : parseMonth (o.purchase_date.getD "") <;>
    simp [hf, hc, hq, hs, hp, hpd, hm]

theorem businessStep_eq (a : BusinessStats) (o : Order) :
    businessStep a o =
      if isBusinessOf o then
        { a with business := chUpd o a.business, monthly_business := mcrUpd o a.monthly_business }
      else
        { a with consumer := chUpd o a.consumer, monthly_consumer := mcrUpd o a.monthly_consumer } := by
  unfold businessStep chUpd mcrUpd shipMonthlyGuard
  cases hf : isBusinessOf o <;>
    by_cases hc : o.order_status.getD "" = "Cancelled" <;>
    cases hq : pyIntField o.quantity <;>
    by_cases hs : o.order_status.getD "" = "Shipped" <;>
    cases hp : pyFloatField o.item_price <;>
    by_cases hpd : o.purchase_date.getD "" = "" <;>
    cases hm : parseMonth (o.purchase_date.getD "") <;>
    simp [hf, hc, hq, hs, hp, hpd, hm]

theorem chUpd_orders (o : Order) (c : ChannelStats) : (chUpd o c).orders = c.orders + 1 := by
  unfold chUpd
  by_cases hc : o.order_status.getD "" = "Cancelled" <;>
    cases hq : pyIntField o.quantity <;>
    by_cases hs : o.order_status.getD "" = "Shipped" <;>
    cases hp : pyFloatField o.item_price <;>
    simp [hc, hq, hs, hp]

theorem foldl_fbaStep_proj (l : List Order) (d1 d2 : Nat) :
    ∀ (a b : FbaFbm), a.monthly_fba = b.monthly_fba → a.monthly_fbm = b.monthly_fbm →
    a.fba.orders = b.fba.orders + d1 → a.fbm.orders = b.fbm.orders + d2 →
    (l.foldl fbaStep a).monthly_fba = (l.foldl fbaStep b).monthly_fba ∧
    (l.foldl fbaStep a).monthly_fbm = (l.foldl fbaStep b).monthly_fbm ∧
    (l.foldl fbaStep a).fba.orders = (l.foldl fbaStep b).fba.orders + d1 ∧
    (l.foldl fbaStep a).fbm.orders = (l.foldl fbaStep b).fbm.orders + d2 := by
  induction l with
  | nil => exact fun a b h1 h2 h3 h4 => ⟨h1, h2, h3, h4⟩
  | cons o rest ih =>
    intro a b h1 h2 h3 h4
    rw [List.foldl_cons, List.foldl_cons]
    refine ih _ _ ?_ ?_ ?_ ?_ <;>
      rw [fbaStep_eq a o, fbaStep_eq b o] <;>
      cases hf : (o.fulfillment_channel.getD "Unknown" == "Amazon") <;>
      simp [hf, chUpd_orders, h1, h2, h3, h4] <;>
      omega

theorem foldl_businessStep_proj (l : List Order) (d1 d2 : Nat) :
    ∀ (a b : BusinessStats), a.monthly_business = b.monthly_business →
    a.monthly_consumer = b.monthly_consumer →
    a.business.orders = b.business.orders + d1 → a.consumer.orders = b.consumer.orders + d2 →
    (l.foldl businessStep a).monthly_business = (l.foldl businessStep b).monthly_business ∧
    (l.foldl businessStep a).monthly_consumer = (l.foldl businessStep b).monthly_consumer ∧
    (l.foldl businessStep a).business.orders = (l.foldl businessStep b).business.orders + d1 ∧
    (l.foldl businessStep a).consumer.orders = (l.foldl businessStep b).consumer.orders + d2 := by
  induction l with
  | nil => exact fun a b h1 h2 h3 h4 => ⟨h1, h2, h3, h4⟩
  | cons o rest ih =>
    intro a b h1 h2 h3 h4
    rw [List.foldl_cons, List.foldl_cons]
    refine ih _ _ ?_ ?_ ?_ ?_ <;>
      rw [businessStep_eq a o, businessStep_eq b o] <;>
      cases hf : isBusinessOf o <;>
      simp [hf, chUpd_orders, h1, h2, h3, h4] <;>
      omega

theorem mcrUpd_price_none (o : Order) (hp : pyFloatField o.item_price = none)
    (m : List (String × MonthlyCR)) : mcrUpd o m = m := by
  unfold mcrUpd shipMonthlyGuard
  by_cases hs : o.order_status.getD "" = "Shipped" <;> simp [hs, hp]

/-- C9: for a shipped record whose item price fails to convert, the monthly
sub-series of the fulfillment and business aggregators are left completely
unchanged — even when the purchase timestamp is present and parseable —
while the record still counts in its class's order count. -/
theorem price_fail_skips_monthly_series (l1 l2 : List Order) (o : Order)
    (hs : o.order_status = some "Shipped") (hp : pyFloatField o.item_price = none) :
    (get_fba_fbm_analysis (l1 ++ o :: l2)).monthly_fba =
      (get_fba_fbm_analysis (l1 ++ l2)).monthly_fba ∧
    (get_fba_fbm_analysis (l1 ++ o :: l2)).monthly_fbm =
      (get_fba_fbm_analysis (l1 ++ l2)).monthly_fbm ∧
    (get_business_analysis (l1 ++ o :: l2)).monthly_business =
      (get_business_analysis (l1 ++ l2)).monthly_business ∧
    (get_business_analysis (l1 ++ o :: l2)).monthly_consumer =
      (get_business_analysis (l1 ++ l2)).monthly_consumer ∧
    (get_fba_fbm_analysis (l1 ++ o :: l2)).fba.orders =
      (get_fba_fbm_analysis (l1 ++ l2)).fba.orders +
        (if o.fulfillment_channel.getD "Unknown" == "Amazon" then 1 else 0) ∧
    (get_fba_fbm_analysis (l1 ++ o :: l2)).fbm.orders =
      (get_fba_fbm_analysis (l1 ++ l2)).fbm.orders +
        (if o.fulfillment_channel.getD "Unknown" == "Amazon" then 0 else 1) ∧
    (get_business_analysis (l1 ++ o :: l2)).business.orders =
      (get_business_analysis (l1 ++ l2)).business.orders +
        (if isBusinessOf o then 1 else 0) ∧
    (get_business_analysis (l1 ++ o :: l2)).consumer.orders =
      (get_business_analysis (l1 ++ l2)).consumer.orders +
        (if isBusinessOf o then 0 else 1) := by
  have hXf : ∀ orders : List Order,
      (l1 ++ orders).foldl fbaStep ⟨⟨0, 0, 0, 0⟩, ⟨0, 0, 0, 0⟩, [], []⟩ =
        orders.foldl fbaStep (l1.foldl fbaStep ⟨⟨0, 0, 0, 0⟩, ⟨0, 0, 0, 0⟩, [], []⟩) :=
    fun orders => List.foldl_append ..
  have hXb : ∀ orders : List Order,
      (l1 ++ orders).foldl businessStep ⟨⟨0, 0, 0, 0⟩, ⟨0, 0, 0, 0⟩, [], []⟩ =
        orders.foldl businessStep (l1.foldl businessStep ⟨⟨0, 0, 0, 0⟩, ⟨0, 0, 0, 0⟩, [], []⟩) :=
    fun orders => List.foldl_append ..
  have hff := foldl_fbaStep_proj l2
    (if o.fulfillment_channel.getD "Unknown" == "Amazon" then 1 else 0)
    (if o.fulfillment_channel.getD "Unknown" == "Amazon" then 0 else 1)
    (fbaStep (l1.foldl fbaStep ⟨⟨0, 0, 0, 0⟩, ⟨0, 0, 0, 0⟩, [], []⟩) o)
    (l1.foldl fbaStep ⟨⟨0, 0, 0, 0⟩, ⟨0, 0, 0, 0⟩, [], []⟩)
    (by rw [fbaStep_eq]
        cases hf : (o.fulfillment_channel.getD "Unknown" == "Amazon") <;>
          simp [hf, mcrUpd_price_none o hp])
    (by rw [fbaStep_eq]
        cases hf : (o.fulfillment_channel.getD "Unknown" == "Amazon") <;>
          simp [hf, mcrUpd_price_none o hp])
    (by rw [fbaStep_eq]
        cases hf : (o.fulfillment_channel.getD "Unknown" == "Amazon") <;>
          simp [hf, chUpd_orders])
    (by rw [fbaStep_eq]
        cases hf : (o.fulfillment_channel.getD "Unknown" == "Amazon") <;>
          simp [hf, chUpd_orders])
  have hbb := foldl_businessStep_proj l2
    (if isBusinessOf o then 1 else 0) (if isBusinessOf o then 0 else 1)
    (businessStep (l1.foldl businessStep ⟨⟨0, 0, 0, 0⟩, ⟨0, 0, 0, 0⟩, [], []⟩) o)
    (l1.foldl businessStep ⟨⟨0, 0, 0, 0⟩, ⟨0, 0, 0, 0⟩, [], []⟩)
    (by rw [businessStep_eq]
        cases hf : isBusinessOf o <;> simp [hf, mcrUpd_price_none o hp])
    (by rw [businessStep_eq]
        cases hf : isBusinessOf o <;> simp [hf, mcrUpd_price_none o hp])
    (by rw [businessStep_eq]
        cases hf : isBusinessOf o <;> simp [hf, chUpd_orders])
    (by rw [businessStep_eq]
        cases hf : isBusinessOf o <;> simp [hf, chUpd_orders])
  rcases hff with ⟨f1, f2, f3, f4⟩
  rcases hbb with ⟨b1, b2, b3, b4⟩
  refine ⟨?_, ?_, ?_, ?_, ?_, ?_, ?_, ?_⟩
  · show stableSort _ ((l1 ++ o :: l2).foldl fbaStep _).monthly_fba = stableSort _ _
    rw [hXf (o :: l2), hXf l2, List.foldl_cons, f1]
  · show stableSort _ ((l1 ++ o :: l2).foldl fbaStep _).monthly_fbm = stableSort _ _
    rw [hXf (o :: l2), hXf l2, List.foldl_cons, f2]
  · show stableSort _ ((l1 ++ o :: l2).foldl businessStep _).monthly_business = stableSort _ _
    rw [hXb (o :: l2), hXb l2, List.foldl_cons, b1]
  · show stableSort _ ((l1 ++ o :: l2).foldl businessStep _).monthly_consumer = stableSort _ _
    rw [hXb (o :: l2), hXb l2, List.foldl_cons, b2]
  · show ((l1 ++ o :: l2).foldl fbaStep ⟨⟨0, 0, 0, 0⟩, ⟨0, 0, 0, 0⟩, [], []⟩).fba.orders =
      ((l1 ++ l2).foldl fbaStep ⟨⟨0, 0, 0, 0⟩, ⟨0, 0, 0, 0⟩, [], []⟩).fba.orders + _
    rw [hXf (o :: l2), hXf l2, List.foldl_cons, f3]
  · show ((l1 ++ o :: l2).foldl fbaStep ⟨⟨0, 0, 0, 0⟩, ⟨0, 0, 0, 0⟩, [], []⟩).fbm.orders =
      ((l1 ++ l2).foldl fbaStep ⟨⟨0, 0, 0, 0⟩, ⟨0, 0, 0, 0⟩, [], []⟩).fbm.orders + _
    rw [hXf (o :: l2), hXf l2, List.foldl_cons, f4]
  · show ((l1 ++ o :: l2).foldl businessStep
        ⟨⟨0, 0, 0, 0⟩, ⟨0, 0, 0, 0⟩, [], []⟩).business.orders =
      ((l1 ++ l2).foldl businessStep ⟨⟨0, 0, 0, 0⟩, ⟨0, 0, 0, 0⟩, [], []⟩).business.orders + _
    rw [hXb (o :: l2), hXb l2, List.foldl_cons, b3]
  · show ((l1 ++ o :: l2).foldl businessStep
        ⟨⟨0, 0, 0, 0⟩, ⟨0, 0, 0, 0⟩, [], []⟩).consumer.orders =
      ((l1 ++ l2).foldl businessStep ⟨⟨0, 0, 0, 0⟩, ⟨0, 0, 0, 0⟩, [], []⟩).consumer.orders + _
    rw [hXb (o :: l2), hXb l2, List.foldl_cons, b4]

/-- A concrete shipped FBA order with an unparsable price and a parseable
timestamp. -/
def wOrder3 : Order where
  order_status := some "Shipped"
  fulfillment_channel := some "Amazon"
  item_price := some "x"
  purchase_date := some "2024-02-10T08:00:00Z"

/-- Witness for C9 at a concrete input. -/
theorem price_fail_skips_monthly_series_witness :
    (get_fba_fbm_analysis [wOrder3]).monthly_fba = (get_fba_fbm_analysis []).monthly_fba ∧
    (get_fba_fbm_analysis [wOrder3]).fba.orders = (get_fba_fbm_analysis []).fba.orders +
      (if wOrder3.fulfillment_channel.getD "Unknown" == "Amazon" then 1 else 0) :=
  ⟨(price_fail_skips_monthly_series [] [] wOrder3 rfl rfl).1,
   (price_fail_skips_monthly_series [] [] wOrder3 rfl rfl).2.2.2.2.1⟩

/-! ## C1: what a numeric parse failure really does -/

/-- C1 counterexample: on a shipped record with `item-price` `"10"`,
`item-tax` `"x"` (unparsable), `shipping-price` `"5"` and quantity `"abc"`
(unparsable), the summary accumulates the price but not the parsable
shipping price, and the monthly trend accumulates no revenue although the
price converts — refuting the claim that a failing field is replaced by
zero for that field alone. -/
theorem parse_fail_not_local_counterexample :
    wOrder1.order_status = some "Shipped" ∧
    pyFloatField wOrder1.item_tax = none ∧
    pyFloatField wOrder1.shipping_price = some 5 ∧
    pyFloatField wOrder1.item_price = some 10 ∧
    pyIntField wOrder1.quantity = none ∧
    (get_summary [wOrder1]).total_shipping = 0 ∧
    (get_summary [wOrder1]).total_revenue = 10 ∧
    get_monthly_trends [wOrder1] = [("2024-01", ⟨1, 0, 0, 1, 0, 0⟩)] := by
  refine ⟨rfl, rfl, ?_, ?_, rfl, rfl, ?_, rfl⟩
  · simp only [show pyFloatField wOrder1.shipping_price = some ((1 : ℚ) * ((5 : Nat) : ℚ)) from
      rfl]
    simp
  · simp only [show pyFloatField wOrder1.item_price = some ((1 : ℚ) * ((10 : Nat) : ℚ)) from
      rfl]
    simp
  · simp only [show (get_summary [wOrder1]).total_revenue = 0 + (1 : ℚ) * ((10 : Nat) : ℚ) from
      rfl]
    simp

/-- Revenue one record adds to its month bucket: its price, but only when
the record is shipped, its quantity converts (a quantity failure aborts the
block first) and the price converts. -/
def mRevDelta (o : Order) : ℚ :=
  match pyIntField o.quantity with
  | none => 0
  | some _ =>
    if o.order_status.getD "" = "Shipped" then (pyFloatField o.item_price).getD 0 else 0

theorem monthUpd_orders (o : Order) (e : MonthStats) : (monthUpd o e).orders = e.orders + 1 := by
  unfold monthUpd
  by_cases h1 : o.order_status.getD "" = "Shipped" <;>
    by_cases h2 : o.order_status.getD "" = "Cancelled" <;>
    by_cases h3 : o.order_status.getD "" = "Pending" <;>
    cases hq : pyIntField o.quantity <;>
    cases hp : pyFloatField o.item_price <;>
    simp [h1, h2, h3, hq, hp]

theorem monthUpd_revenue (o : Order) (e : MonthStats) :
    (monthUpd o e).revenue = e.revenue + mRevDelta o := by
  unfold monthUpd mRevDelta
  by_cases h1 : o.order_status.getD "" = "Shipped" <;>
    by_cases h2 : o.order_status.getD "" = "Cancelled" <;>
    by_cases h3 : o.order_status.getD "" = "Pending" <;>
    cases hq : pyIntField o.quantity <;>
    cases hp : pyFloatField o.item_price <;>
    simp [h1, h2, h3, hq, hp]

theorem updAssoc_snd_sum {β M : Type} [AddCommMonoid M] (proj : β → M)
    (m : List (String × β)) (k : String) (d : β) (f : β → β) (c : M)
    (hd : proj d = 0) (hf : ∀ v, proj (f v) = proj v + c) :
    ((updAssoc m k d f).map (fun p => proj p.2)).sum =
      (m.map (fun p => proj p.2)).sum + c := by
  induction m with
  | nil => simp [updAssoc, hf, hd]
  | cons q rest ih =>
    obtain ⟨a, v⟩ := q
    by_cases ha : a = k
    · simp only [updAssoc, if_pos ha, List.map_cons, List.sum_cons, hf]
      exact add_right_comm _ _ _
    · simp only [updAssoc, if_neg ha, List.map_cons, List.sum_cons, ih]
      rw [add_assoc]

/-- Sum of the month order counts of the monthly trend. -/
def mOrdersSum (orders : List Order) : Nat :=
  ((get_monthly_trends orders).map (fun p => p.2.orders)).sum

/-- Sum of the month revenues of the monthly trend. -/
def mRevSum (orders : List Order) : ℚ :=
  ((get_monthly_trends orders).map (fun p => p.2.revenue)).sum

theorem monthly_sums (orders : List Order) :
    mOrdersSum orders =
      (orders.map (fun o => if (parseMonthGuard o).isSome then 1 else 0)).sum ∧
    mRevSum orders =
      (orders.map (fun o => if (parseMonthGuard o).isSome then mRevDelta o else 0)).sum := by
  have hperm := stableSort_perm (fun x y : String × MonthStats => decide (y.1 ≤ x.1))
    (orders.foldl monthlyStep [])
  have hfold : ∀ (l : List Order) (acc : List (String × MonthStats)),
      ((l.foldl monthlyStep acc).map (fun p => p.2.orders)).sum =
        (acc.map (fun p => p.2.orders)).sum +
          (l.map (fun o => if (parseMonthGuard o).isSome then 1 else 0)).sum ∧
      ((l.foldl monthlyStep acc).map (fun p => p.2.revenue)).sum =
        (acc.map (fun p => p.2.revenue)).sum +
          (l.map (fun o => if (parseMonthGuard o).isSome then mRevDelta o else 0)).sum := by
    intro l
    induction l with
    | nil => simp
    | cons o rest ih =>
      intro acc
      rcases ih (monthlyStep acc o) with ⟨h1, h2⟩
      rw [List.foldl_cons]
      constructor
      · rw [h1, monthlyStep_collapse]
        cases hg : parseMonthGuard o with
        | none => simp [hg]
        | some mk =>
          simp only
          rw [updAssoc_snd_sum (fun e : MonthStats => e.orders) acc mk initMonth
            (monthUpd o) 1 rfl (monthUpd_orders o)]
          simp [hg]
          omega
      · rw [h2, monthlyStep_collapse]
        cases hg : parseMonthGuard o with
        | none => simp [hg]
        | some mk =>
          simp only
          rw [updAssoc_snd_sum (fun e : MonthStats => e.revenue) acc mk initMonth
            (monthUpd o) (mRevDelta o) rfl (monthUpd_revenue o)]
          simp [hg]
          ring
  constructor
  · unfold mOrdersSum get_monthly_trends
    rw [(hperm.map (fun p : String × MonthStats => p.2.orders)).sum_eq]
    rw [(hfold orders []).1]
    simp
  · unfold mRevSum get_monthly_trends
    rw [(hperm.map (fun p : String × MonthStats => p.2.revenue)).sum_eq]
    rw [(hfold orders []).2]
    simp

/-- C1 (amended): a failing numeric conversion contributes nothing itself
and also aborts the remaining conversions of the same `try` block, while
conversions made before it stand and the record's membership in the counts
taken earlier is unaffected.  Concretely, on a shipped record whose
`item-price` converts to `p` but whose `item-tax` does not: the summary
accumulates `p` into revenue but leaves tax and shipping untouched (even a
parsable shipping price), and the record still counts as an order; in the
monthly trend, if additionally `quantity` fails, the month's revenue is
left untouched although the price converts, while the month's order count
still counts the record. -/
theorem parse_fail_aborts_rest_of_block (l1 l2 : List Order) (o : Order) (p : ℚ)
    (hs : o.order_status = some "Shipped") (hp : pyFloatField o.item_price = some p)
    (ht : pyFloatField o.item_tax = none) :
    (get_summary (l1 ++ o :: l2)).total_revenue = (get_summary (l1 ++ l2)).total_revenue + p ∧
    (get_summary (l1 ++ o :: l2)).total_tax = (get_summary (l1 ++ l2)).total_tax ∧
    (get_summary (l1 ++ o :: l2)).total_shipping = (get_summary (l1 ++ l2)).total_shipping ∧
    (get_summary (l1 ++ o :: l2)).total_orders = (get_summary (l1 ++ l2)).total_orders + 1 ∧
    (pyIntField o.quantity = none →
      mRevSum (l1 ++ o :: l2) = mRevSum (l1 ++ l2) ∧
      ((parseMonthGuard o).isSome = true →
        mOrdersSum (l1 ++ o :: l2) = mOrdersSum (l1 ++ l2) + 1)) := by
  have hs' : o.order_status.getD "Unknown" = "Shipped" := by rw [hs]; rfl
  have hrev : revDelta o = p := by unfold revDelta; rw [if_pos hs', hp]; rfl
  have htax : taxDelta o = 0 := by unfold taxDelta; simp [hs', hp, ht]
  have hship : shipDelta o = 0 := by unfold shipDelta; simp [hs', hp, ht]
  refine ⟨?_, ?_, ?_, ?_, ?_⟩
  · unfold get_summary
    rw [(foldl_summaryStep_money (l1 ++ o :: l2) _).1, (foldl_summaryStep_money (l1 ++ l2) _).1]
    simp only [initSummary, List.map_append, List.sum_append, List.map_cons, List.sum_cons, hrev]
    ring
  · unfold get_summary
    rw [(foldl_summaryStep_money (l1 ++ o :: l2) _).2.1,
      (foldl_summaryStep_money (l1 ++ l2) _).2.1]
    simp only [initSummary, List.map_append, List.sum_append, List.map_cons, List.sum_cons, htax]
    ring
  · unfold get_summary
    rw [(foldl_summaryStep_money (l1 ++ o :: l2) _).2.2.1,
      (foldl_summaryStep_money (l1 ++ l2) _).2.2.1]
    simp only [initSummary, List.map_append, List.sum_append, List.map_cons, List.sum_cons, hship]
    ring
  · rw [get_summary_total_orders, get_summary_total_orders]
    simp
    omega
  · intro hq
    have hmr : mRevDelta o = 0 := by unfold mRevDelta; rw [hq]
    constructor
    · rw [(monthly_sums (l1 ++ o :: l2)).2, (monthly_sums (l1 ++ l2)).2]
      simp only [List.map_append, List.sum_append, List.map_cons, List.sum_cons, hmr]
      simp
    · intro hg
      rw [(monthly_sums (l1 ++ o :: l2)).1, (monthly_sums (l1 ++ l2)).1]
      simp only [List.map_append, List.sum_append, List.map_cons, List.sum_cons, hg]
      simp
      omega

/-- Witness for the amended C1 at a concrete input. -/
theorem parse_fail_aborts_rest_of_block_witness :
    (get_summary [wOrder1]).total_shipping = (get_summary []).total_shipping ∧
    mRevSum [wOrder1] = mRevSum [] := by
  have h := parse_fail_aborts_rest_of_block [] [] wOrder1 10 rfl
    (by simp only [show pyFloatField wOrder1.item_price = some ((1 : ℚ) * ((10 : Nat) : ℚ)) from
          rfl]
        simp) rfl
  exact ⟨h.2.2.1, (h.2.2.2.2 rfl).1⟩

/-! ## C2: the sentinel SKU in the promotion analysis -/

/-- A concrete promoted order with no SKU column. -/
def wOrder4 : Order where
  promotion_ids := some "PROMO1"

/-- C2 counterexample: a promoted record with no `sku` column is grouped
under the sentinel key `"Unknown"`: the per-SKU promoted-order map gets an
`"Unknown"` key and the promotion's SKU set contains `"Unknown"`, refuting
the claimed exclusion. -/
theorem promo_sentinel_sku_counterexample :
    wOrder4.sku.getD "Unknown" = "Unknown" ∧
    (get_promotions_analysis [wOrder4]).skus_on_promotion = [("Unknown", 1)] ∧
    (get_promotions_analysis [wOrder4]).by_promotion_type =
      [("PROMO1", ⟨1, ["Unknown"], 1⟩)] ∧
    (get_promotions_analysis [wOrder4]).total_with_promotions = 1 :=
  ⟨rfl, rfl, rfl, rfl⟩

theorem lookupA_mem {β : Type} (m : List (String × β)) (k : String) (v : β)
    (h : lookupA m k = some v) : (k, v) ∈ m := by
  induction m with
  | nil => exact absurd h (by simp [lookupA])
  | cons q rest ih =>
    obtain ⟨a, w⟩ := q
    by_cases ha : a = k
    · subst ha
      rw [lookupA, if_pos rfl] at h
      obtain rfl := Option.some.inj h
      exact List.mem_cons_self _ _
    · rw [lookupA, if_neg ha] at h
      exact List.mem_cons_of_mem _ (ih h)

theorem addSku_mem_self (l : List String) (s : String) : s ∈ addSku l s := by
  unfold addSku
  by_cases h : s ∈ l <;> simp [h]

theorem addSku_mono (l : List String) (s t : String) (h : t ∈ l) : t ∈ addSku l s := by
  unfold addSku
  by_cases hs : s ∈ l <;> simp [hs, h]

theorem mem_keys_bump (m : List (String × Nat)) (k k0 : String)
    (h : k0 ∈ m.map Prod.fst) : k0 ∈ (bump m k).map Prod.fst := by
  rw [bump_keys]
  split
  · exact h
  · exact List.mem_append_left _ h

theorem promoStep_total (a : PromoResult) (o : Order) :
    (promoStep a o).total_with_promotions =
      a.total_with_promotions +
        (if pyStrip (o.promotion_ids.getD "") = "" then 0 else 1) := by
  unfold promoStep
  by_cases hpr : pyStrip (o.promotion_ids.getD "") = "" <;>
    by_cases hpd : o.purchase_date.getD "" = "" <;>
    cases hm : parseMonth (o.purchase_date.getD "") <;>
    simp [hpr, hpd, hm]

theorem promoStep_sku_keys (a : PromoResult) (o : Order) (k0 : String)
    (h : k0 ∈ a.skus_on_promotion.map Prod.fst) :
    k0 ∈ (promoStep a o).skus_on_promotion.map Prod.fst := by
  have hb := mem_keys_bump a.skus_on_promotion (skuOf o) k0 h
  unfold promoStep
  by_cases hpr : pyStrip (o.promotion_ids.getD "") = ""
  · simpa [hpr] using h
  · by_cases hpd : o.purchase_date.getD "" = ""
    · simpa [hpr, hpd] using hb
    · cases hm : parseMonth (o.purchase_date.getD "") <;> simpa [hpr, hpd, hm] using hb

theorem mem_keys_bump_self (m : List (String × Nat)) (k : String) :
    k ∈ (bump m k).map Prod.fst := by
  rw [bump_keys]
  split
  · assumption
  · simp

theorem promoStep_sku_self (a : PromoResult) (o : Order)
    (hpromo : pyStrip (o.promotion_ids.getD "") ≠ "") :
    skuOf o ∈ (promoStep a o).skus_on_promotion.map Prod.fst := by
  have hb := mem_keys_bump_self a.skus_on_promotion (skuOf o)
  unfold promoStep
  by_cases hpd : o.purchase_date.getD "" = ""
  · simpa [hpromo, hpd] using hb
  · cases hm : parseMonth (o.purchase_date.getD "") <;> simpa [hpromo, hpd, hm] using hb

theorem promoStep_bpt_self (a : PromoResult) (o : Order)
    (hpromo : pyStrip (o.promotion_ids.getD "") ≠ "") :
    ∃ v, lookupA (promoStep a o).by_promotion_type (pyStrip (o.promotion_ids.getD "")) =
      some v ∧ skuOf o ∈ v.skus := by
  have key : ∃ v, lookupA (updAssoc (updAssoc a.by_promotion_type
      (pyStrip (o.promotion_ids.getD "")) ⟨0, [], 0⟩ (fun e => { e with count := e.count + 1 }))
      (pyStrip (o.promotion_ids.getD "")) ⟨0, [], 0⟩
      (fun e => { e with skus := addSku e.skus (skuOf o) }))
      (pyStrip (o.promotion_ids.getD "")) = some v ∧ skuOf o ∈ v.skus := by
    rw [updAssoc_updAssoc, lookupA_updAssoc_self]
    exact ⟨_, rfl, addSku_mem_self _ _⟩
  unfold promoStep
  by_cases hpd : o.purchase_date.getD "" = ""
  · simpa [hpromo, hpd] using key
  · cases hm : parseMonth (o.purchase_date.getD "") <;> simpa [hpromo, hpd, hm] using key

theorem promoStep_bpt_pres (a : PromoResult) (o : Order) (pk kk : String)
    (h : ∃ v, lookupA a.by_promotion_type pk = some v ∧ kk ∈ v.skus) :
    ∃ v, lookupA (promoStep a o).by_promotion_type pk = some v ∧ kk ∈ v.skus := by
  obtain ⟨v, hv, hkk⟩ := h
  unfold promoStep
  by_cases hpr : pyStrip (o.promotion_ids.getD "") = ""
  · exact ⟨v, by simpa [hpr] using hv, hkk⟩
  · have key : ∃ w, lookupA (updAssoc (updAssoc a.by_promotion_type
        (pyStrip (o.promotion_ids.getD "")) ⟨0, [], 0⟩
        (fun e => { e with count := e.count + 1 }))
        (pyStrip (o.promotion_ids.getD "")) ⟨0, [], 0⟩
        (fun e => { e with skus := addSku e.skus (skuOf o) })) pk = some w ∧ kk ∈ w.skus := by
      rw [updAssoc_updAssoc]
      by_cases hk : pk = pyStrip (o.promotion_ids.getD "")
      · subst hk
        rw [lookupA_updAssoc_self]
        refine ⟨_, rfl, ?_⟩
        simp only [hv, Option.getD_some]
        exact addSku_mono _ _ _ hkk
      · rw [lookupA_updAssoc_ne _ _ _ _ _ hk]
        exact ⟨v, hv, hkk⟩
    by_cases hpd : o.purchase_date.getD "" = ""
    · simpa [hpr, hpd] using key
    · cases hm : parseMonth (o.purchase_date.getD "") <;> simpa [hpr, hpd, hm] using key

theorem foldl_promoStep_total (l : List Order) (a : PromoResult) :
    (l.foldl promoStep a).total_with_promotions =
      a.total_with_promotions +
        (l.map (fun o => if pyStrip (o.promotion_ids.getD "") = "" then 0 else 1)).sum := by
  induction l generalizing a with
  | nil => simp
  | cons o rest ih =>
    rw [List.foldl_cons, ih, promoStep_total]
    simp only [List.map_cons, List.sum_cons]
    omega

theorem foldl_promoStep_sku_keys (l : List Order) (a : PromoResult) (k0 : String)
    (h : k0 ∈ a.skus_on_promotion.map Prod.fst) :
    k0 ∈ (l.foldl promoStep a).skus_on_promotion.map Prod.fst := by
  induction l generalizing a with
  | nil => exact h
  | cons o rest ih => exact ih _ (promoStep_sku_keys a o k0 h)

theorem foldl_promoStep_bpt (l : List Order) (a : PromoResult) (pk kk : String)
    (h : ∃ v, lookupA a.by_promotion_type pk = some v ∧ kk ∈ v.skus) :
    ∃ v, lookupA (l.foldl promoStep a).by_promotion_type pk = some v ∧ kk ∈ v.skus := by
  induction l generalizing a with
  | nil => exact h
  | cons o rest ih => exact ih _ (promoStep_bpt_pres a o pk kk h)

/-- C2 (amended): in the promotion analysis there is no sentinel exclusion:
a promoted record whose SKU is missing, empty or `"Unknown"` is grouped
under its SKU value (`"Unknown"` when missing) exactly like any other —
the per-SKU promoted-order map gains that key, the promotion's distinct-SKU
set contains it, and the record counts toward the global promoted-order
total. -/
theorem promo_sentinel_sku_included (l1 l2 : List Order) (o : Order)
    (hpromo : pyStrip (o.promotion_ids.getD "") ≠ "") :
    (get_promotions_analysis (l1 ++ o :: l2)).total_with_promotions =
      (get_promotions_analysis (l1 ++ l2)).total_with_promotions + 1 ∧
    o.sku.getD "Unknown" ∈
      (get_promotions_analysis (l1 ++ o :: l2)).skus_on_promotion.map Prod.fst ∧
    ∃ pt ∈ (get_promotions_analysis (l1 ++ o :: l2)).by_promotion_type,
      pt.1 = pyStrip (o.promotion_ids.getD "") ∧ o.sku.getD "Unknown" ∈ pt.2.skus := by
  have hred1 : ∀ orders : List Order,
      (get_promotions_analysis orders).total_with_promotions =
        (orders.foldl promoStep ⟨0, [], [], []⟩).total_with_promotions := fun _ => rfl
  have hred2 : ∀ orders : List Order,
      (get_promotions_analysis orders).skus_on_promotion =
        (orders.foldl promoStep ⟨0, [], [], []⟩).skus_on_promotion := fun _ => rfl
  have hsplit : ∀ orders : List Order,
      (l1 ++ orders).foldl promoStep (⟨0, [], [], []⟩ : PromoResult) =
        orders.foldl promoStep (l1.foldl promoStep ⟨0, [], [], []⟩) :=
    fun orders => List.foldl_append ..
  refine ⟨?_, ?_, ?_⟩
  · rw [hred1, hred1, hsplit (o :: l2), hsplit l2, List.foldl_cons,
      foldl_promoStep_total l2 (promoStep (l1.foldl promoStep ⟨0, [], [], []⟩) o),
      foldl_promoStep_total l2 (l1.foldl promoStep ⟨0, [], [], []⟩), promoStep_total]
    simp [hpromo]
    omega
  · rw [hred2, hsplit (o :: l2), List.foldl_cons]
    exact foldl_promoStep_sku_keys l2 _ _ (promoStep_sku_self _ o hpromo)
  · have hfold := foldl_promoStep_bpt l2
      (promoStep (l1.foldl promoStep ⟨0, [], [], []⟩) o)
      (pyStrip (o.promotion_ids.getD "")) (skuOf o)
      (promoStep_bpt_self _ o hpromo)
    obtain ⟨v, hv, hkk⟩ := hfold
    have hred3 : (get_promotions_analysis (l1 ++ o :: l2)).by_promotion_type =
        (((l1 ++ o :: l2).foldl promoStep ⟨0, [], [], []⟩).by_promotion_type).map
          (fun p => (p.1, promoFinalize p.2)) := rfl
    have hvm : lookupA (get_promotions_analysis (l1 ++ o :: l2)).by_promotion_type
        (pyStrip (o.promotion_ids.getD "")) = some (promoFinalize v) := by
      rw [hred3, lookupA_map_value promoFinalize, hsplit (o :: l2), List.foldl_cons, hv]
      rfl
    refine ⟨(pyStrip (o.promotion_ids.getD ""), promoFinalize v),
      lookupA_mem _ _ _ hvm, rfl, hkk⟩

/-- Witness for the amended C2 at a concrete input. -/
theorem promo_sentinel_sku_included_witness :
    (get_promotions_analysis [wOrder4]).total_with_promotions =
      (get_promotions_analysis []).total_with_promotions + 1 ∧
    wOrder4.sku.getD "Unknown" ∈
      (get_promotions_analysis [wOrder4]).skus_on_promotion.map Prod.fst :=
  ⟨(promo_sentinel_sku_included [] [] wOrder4 (by decide)).1,
   (promo_sentinel_sku_included [] [] wOrder4 (by decide)).2.1⟩

/-! ## C4: product ranking is descending by revenue and stable -/

theorem findIdx_append_first {α : Type} (p : α → Bool) (l1 : List α) (y : α) (l2 : List α)
    (h1 : ∀ x ∈ l1, p x = false) (hy : p y = true) :
    (l1 ++ y :: l2).findIdx p = l1.length := by
  induction l1 with
  | nil => simp [List.findIdx_cons, hy]
  | cons a as ih =>
    rw [List.cons_append, List.findIdx_cons, h1 a (by simp),
      ih (fun x hx => h1 x (by simp [hx]))]
    rfl

theorem productUpdate_sku (o : Order) (sk : String) (p : Product) :
    (productUpdate o sk p).sku = sk := by
  unfold productUpdate
  by_cases h1 : p.name = "" <;>
    cases hq : pyIntField o.quantity <;>
    by_cases hs : o.order_status.getD "" = "Shipped" <;>
    cases hp : pyFloatField o.item_price <;>
    simp [h1, hq, hs, hp]

theorem updAssoc_forall_pair {β : Type} (P : String × β → Prop) (m : List (String × β))
    (k : String) (d : β) (f : β → β) (h : ∀ p ∈ m, P p) (hd : P (k, f d))
    (hf : ∀ v, P (k, f v)) : ∀ p ∈ updAssoc m k d f, P p := by
  induction m with
  | nil =>
    intro p hp
    simp only [updAssoc, List.mem_singleton] at hp
    subst hp
    exact hd
  | cons q rest ih =>
    obtain ⟨a, v⟩ := q
    by_cases ha : a = k
    · subst ha
      simp only [updAssoc, if_pos rfl]
      intro p hp
      rcases List.mem_cons.mp hp with h1 | h1
      · subst h1; exact hf v
      · exact h p (by simp [h1])
    · simp only [updAssoc, if_neg ha]
      intro p hp
      rcases List.mem_cons.mp hp with h1 | h1
      · subst h1; exact h (a, v) (by simp)
      · exact ih (fun p hp => h p (by simp [hp])) p h1

theorem productsAssoc_entry_sku (orders : List Order) :
    ∀ p ∈ orders.foldl productsStep [], p.2.sku = p.1 := by
  suffices h : ∀ (l : List Order) (acc : List (String × Product)),
      (∀ p ∈ acc, p.2.sku = p.1) → ∀ p ∈ l.foldl productsStep acc, p.2.sku = p.1 by
    exact h orders [] (by simp)
  intro l
  induction l with
  | nil => exact fun acc h => h
  | cons o rest ih =>
    intro acc hacc
    rw [List.foldl_cons]
    apply ih
    unfold productsStep
    by_cases hv : skuOf o = "" ∨ skuOf o = "Unknown"
    · simpa [hv] using hacc
    · simp only [hv, if_neg hv]
      exact updAssoc_forall_pair (fun p => p.2.sku = p.1) acc (skuOf o) initProduct
        (productUpdate o (skuOf o)) hacc (productUpdate_sku o (skuOf o) initProduct)
        (fun v => productUpdate_sku o (skuOf o) v)

theorem productsAux (full : List Order) :
    ∀ (l pre : List Order) (acc : List (String × Product)),
    full = pre ++ l →
    (∀ k, k ∈ acc.map Prod.fst ↔
      (¬(k = "" ∨ k = "Unknown") ∧ ∃ o ∈ pre, skuOf o = k)) →
    (acc.map Prod.fst).Pairwise (fun a b => firstSkuIdx full a < firstSkuIdx full b) →
    (∀ k ∈ acc.map Prod.fst, firstSkuIdx full k < pre.length) →
    ((l.foldl productsStep acc).map Prod.fst).Pairwise
      (fun a b => firstSkuIdx full a < firstSkuIdx full b) := by
  intro l
  induction l with
  | nil => intro pre acc _ _ hpw _; simpa using hpw
  | cons o rest ih =>
    intro pre acc hfull hiff hpw hbound
    rw [List.foldl_cons]
    have hfull' : full = (pre ++ [o]) ++ rest := by
      rw [hfull, List.append_assoc]
      rfl
    by_cases hv : skuOf o = "" ∨ skuOf o = "Unknown"
    · have hstep : productsStep acc o = acc := by
        unfold productsStep
        simp [hv]
      rw [hstep]
      refine ih (pre ++ [o]) acc hfull' ?_ hpw ?_
      · intro k
        rw [hiff k]
        constructor
        · rintro ⟨hvk, o', ho', hsk⟩
          exact ⟨hvk, o', List.mem_append_left _ ho', hsk⟩
        · rintro ⟨hvk, o', ho', hsk⟩
          rcases List.mem_append.mp ho' with h | h
          · exact ⟨hvk, o', h, hsk⟩
          · have ho'o : o' = o := by simpa using h
            subst ho'o
            exact absurd (hsk ▸ hv) hvk
      · intro k hk
        simpa using Nat.lt_succ_of_lt (hbound k hk)
    · have hstep : productsStep acc o =
          updAssoc acc (skuOf o) initProduct (productUpdate o (skuOf o)) := by
        unfold productsStep
        simp [hv]
      rw [hstep]
      by_cases hmem : skuOf o ∈ acc.map Prod.fst
      · have hkeys : (updAssoc acc (skuOf o) initProduct
            (productUpdate o (skuOf o))).map Prod.fst = acc.map Prod.fst := by
          rw [updAssoc_keys, if_pos hmem]
        refine ih (pre ++ [o]) _ hfull' ?_ ?_ ?_
        · intro k
          rw [hkeys, hiff k]
          constructor
          · rintro ⟨hvk, o', ho', hsk⟩
            exact ⟨hvk, o', List.mem_append_left _ ho', hsk⟩
          · rintro ⟨hvk, o', ho', hsk⟩
            rcases List.mem_append.mp ho' with h | h
            · exact ⟨hvk, o', h, hsk⟩
            · have ho'o : o' = o := by simpa using h
              have hsk2 : skuOf o = k := ho'o ▸ hsk
              rcases (hiff (skuOf o)).mp hmem with ⟨hva, o'', ho'', hsk''⟩
              exact ⟨hvk, o'', ho'', hsk2 ▸ hsk''⟩
        · rw [hkeys]
          exact hpw
        · intro k hk
          rw [hkeys] at hk
          simpa using Nat.lt_succ_of_lt (hbound k hk)
      · have hkeys : (updAssoc acc (skuOf o) initProduct
            (productUpdate o (skuOf o))).map Prod.fst = acc.map Prod.fst ++ [skuOf o] := by
          rw [updAssoc_keys, if_neg hmem]
        have hnotpre : ∀ o' ∈ pre, skuOf o' ≠ skuOf o := by
          intro o' ho' heq
          exact hmem ((hiff (skuOf o)).mpr ⟨hv, o', ho', heq⟩)
        have hidx : firstSkuIdx full (skuOf o) = pre.length := by
          rw [hfull]
          unfold firstSkuIdx
          exact findIdx_append_first _ pre o rest
            (fun x hx => by simpa using hnotpre x hx) (by simp)
        refine ih (pre ++ [o]) _ hfull' ?_ ?_ ?_
        · intro k
          rw [hkeys]
          constructor
          · intro hk
            rcases List.mem_append.mp hk with h | h
            · rcases (hiff k).mp h with ⟨hvk, o', ho', hsk⟩
              exact ⟨hvk, o', List.mem_append_left _ ho', hsk⟩
            · have hko : k = skuOf o := by simpa using h
              subst hko
              exact ⟨hv, o, List.mem_append_right _ (by simp), rfl⟩
          · rintro ⟨hvk, o', ho', hsk⟩
            rcases List.mem_append.mp ho' with h | h
            · exact List.mem_append_left _ ((hiff k).mpr ⟨hvk, o', h, hsk⟩)
            · have ho'o : o' = o := by simpa using h
              subst ho'o
              exact List.mem_append_right _ (by simp [← hsk])
        · rw [hkeys, List.pairwise_append]
          refine ⟨hpw, by simp, ?_⟩
          intro a ha b hb
          have hbo : b = skuOf o := by simpa using hb
          subst hbo
          rw [hidx]
          exact hbound a ha
        · intro k hk
          rw [hkeys] at hk
          rcases List.mem_append.mp hk with h | h
          · simpa using Nat.lt_succ_of_lt (hbound k h)
          · have hko : k = skuOf o := by simpa using h
            subst hko
            simpa [hidx] using Nat.lt_succ_self pre.length

/-- C4: the product summary is sorted descending by `total_revenue`, and
two entries with equal revenue appear in the order in which their SKUs
first appear in the input (the stable-sort ranking contract). -/
theorem products_ranking_sorted_stable (orders : List Order) :
    (get_products_summary orders).Pairwise (fun a b =>
      b.total_revenue < a.total_revenue ∨
      (b.total_revenue = a.total_revenue ∧
        firstSkuIdx orders a.sku < firstSkuIdx orders b.sku)) := by
  have hkeys : ((orders.foldl productsStep []).map Prod.fst).Pairwise
      (fun a b => firstSkuIdx orders a < firstSkuIdx orders b) :=
    productsAux orders orders [] [] rfl (by simp) (by simp) (by simp)
  have hpairs : (orders.foldl productsStep []).Pairwise
      (fun x y => firstSkuIdx orders x.1 < firstSkuIdx orders y.1) := by
    rw [List.pairwise_map] at hkeys
    exact hkeys
  have hsku := productsAssoc_entry_sku orders
  have hT : ((orders.foldl productsStep []).map Prod.snd).Pairwise
      (fun a b => firstSkuIdx orders a.sku < firstSkuIdx orders b.sku) := by
    rw [List.pairwise_map]
    refine List.Pairwise.imp_of_mem ?_ hpairs
    intro x y hx hy hxy
    rw [hsku x hx, hsku y hy]
    exact hxy
  have hP := stableSort_pairwise
    (fun x y : Product => decide (x.total_revenue ≤ y.total_revenue))
    (fun a b => firstSkuIdx orders a.sku < firstSkuIdx orders b.sku)
    (fun a b => by
      rcases le_total a.total_revenue b.total_revenue with h | h
      · exact Or.inl (decide_eq_true h)
      · exact Or.inr (decide_eq_true h))
    (fun a b c hab hbc =>
      decide_eq_true (le_trans (of_decide_eq_true hab) (of_decide_eq_true hbc)))
    ((orders.foldl productsStep []).map Prod.snd) hT
  unfold get_products_summary
  refine List.Pairwise.imp ?_ hP
  intro a b hab
  rcases hab with hab | ⟨h1, h2, h3⟩
  · exact Or.inl (lt_of_not_le (of_decide_eq_false hab))
  · exact Or.inr ⟨le_antisymm (of_decide_eq_true h2) (of_decide_eq_true h1), h3⟩
